import Mathlib

/-!
# A shallow embedding of the `znote` dispatcher

This file embeds the subscription registry and the dispatch/emission
algorithm of `znote` (`src/znote/dispatch.py`, class `Dispatcher`, together
with the `Emission`/`_Response` result values) and proves the behavioural
properties claimed for it.

Modelling choices:

* A note instance is represented by its method-resolution order
  (`type(note).__mro__`): the list of type identities, most derived first,
  plus an opaque data field.  Type identities and handler/filter identities
  are natural numbers; the behaviour of a handler or filter is looked up in
  an environment indexed by its identity, which models Python's object
  identity semantics (`handler in seen_handlers` compares identities).
* The mutable dicts (`typed_payload` and `context`) are modelled as
  association lists threaded through the computation; each dict also
  carries an object identity (`DId`) so that reference sharing — which
  dict object a `_Response` or an argument tuple holds — is observable.
  A handler's in-place mutations are modelled by the list of key/value
  writes it performs on the dicts it received.
* A raised exception is modelled by `Except.error`; the traversal stops at
  the first error and `emit` propagates it, returning no `Emission`, while
  the mutations already performed on the shared dicts persist (the caller
  still holds those objects).
* `EmitResult` returns, besides the `Emission` (or the error), ghost
  observations used only to state properties: the registry after the call,
  the final contents of the shared dicts, a log of every filter/handler
  invocation with the exact argument tuple it received, and the internal
  sync/async bookkeeping lists of the algorithm.
* Filters are modelled as pure predicates (they may raise but not mutate);
  asynchronous handlers scheduled by `asyncio.gather` are executed in
  submission order, which is the deterministic single-event-loop behaviour
  the code relies on (`gather` returns its results in submission order).
-/

namespace ZNote

/-- Keys of the payload/context mappings (Python `str`). -/
abbrev Key := String

/-- Contents of a Python dict, as an association list in insertion order. -/
abbrev Entries (V : Type) := List (Key × V)

/-- `d[k] = v` on a dict: overwrite in place if the key exists, else append. -/
def dictSet {V : Type} (d : Entries V) (k : Key) (v : V) : Entries V :=
  if d.any (fun kv => kv.1 = k) then
    d.map (fun kv => if kv.1 = k then (k, v) else kv)
  else
    d ++ [(k, v)]

/-- `d.get(k)` on a dict. -/
def dictGet {V : Type} (d : Entries V) (k : Key) : Option V :=
  (d.find? (fun kv => kv.1 = k)).map Prod.snd

/-- Apply a sequence of in-place `d[k] = v` writes to a dict. -/
def applyWrites {V : Type} (d : Entries V) (ws : List (Key × V)) : Entries V :=
  ws.foldl (fun d kv => dictSet d kv.1 kv.2) d

/-- Identity of a dict object on the Python heap.  Objects created at
different program points are distinct; `freshEmpty` numbers the `{}` dicts
allocated while building async `_Response`s (dispatch.py line 177). -/
inductive DId where
  | payloadDict : DId
  | freshCtx : DId
  | callerCtx : Nat → DId
  | freshEmpty : Nat → DId
deriving DecidableEq, Repr

/-- A dict object: its identity together with its current contents. -/
structure DRef (V : Type) where
  id : DId
  entries : Entries V
deriving DecidableEq, Repr

/-- A note instance: `type(note).__mro__` (type identities, most derived
first) plus the note's own field data, opaque to the dispatcher. -/
structure Note (V : Type) where
  mro : List Nat
  data : V
deriving DecidableEq, Repr

/-- One positional argument of a handler/filter call: the note, or one of
the shared dict objects (by reference). -/
inductive Arg (V : Type) where
  | note : Note V → Arg V
  | dict : DRef V → Arg V
deriving DecidableEq, Repr

/-- Outcome of one handler call: the returned value (`none` models a
handler that returns `None`) and the in-place writes it performed on the
payload and context dicts it received. -/
structure HRes (V : Type) where
  result : Option V
  payloadWrites : List (Key × V)
  contextWrites : List (Key × V)
deriving DecidableEq, Repr

/-- Behaviour of a handler: its declared positional parameter count
(`len(inspect.signature(fn).parameters)`), whether it is a coroutine
function (`asyncio.iscoroutinefunction`), and its body. -/
structure HandlerB (V : Type) where
  arity : Nat
  isAsync : Bool
  run : List (Arg V) → Except String (HRes V)

/-- Behaviour of a filter: declared parameter count and its predicate
body, which may raise (`Except.error`). -/
structure FilterB (V : Type) where
  arity : Nat
  run : List (Arg V) → Except String Bool

/-- A registered subscription: handler identity plus optional filter
identity (`Dispatcher._subscriptions` stores `(handler, filter)` pairs). -/
structure Subscription where
  handler : Nat
  filter : Option Nat
deriving DecidableEq, Repr

/-- The subscription registry `Dispatcher._subscriptions`: a dict from
note-type identity to the list of subscriptions in registration order. -/
abbrev Registry := List (Nat × List Subscription)

/-- `cls._subscriptions[t]` when `t in cls._subscriptions`. -/
def lookupSubs (regs : Registry) (t : Nat) : Option (List Subscription) :=
  (regs.find? (fun p => p.1 = t)).map Prod.snd

/-- The subscriptions consulted for type `t`: the registered list, or
nothing when `t not in cls._subscriptions`. -/
def subsFor (regs : Registry) (t : Nat) : List Subscription :=
  (lookupSubs regs t).getD []

/-- `Dispatcher.subscribe(note_type, filter)(func)`: append the pair under
the type key, creating the key's list if absent. -/
def subscribeReg (regs : Registry) (t : Nat) (s : Subscription) : Registry :=
  if (lookupSubs regs t).isSome then
    regs.map (fun p => if p.1 = t then (p.1, p.2 ++ [s]) else p)
  else
    regs ++ [(t, [s])]

/-- `Dispatcher.clear_subscriptions()`. -/
def clear_subscriptions : Registry := []

/-- `get_args_to_pass(fn, all_args)`: `tuple(all_args[:n])` where `n` is
the number of parameters `fn` declares. -/
def get_args_to_pass {V : Type} (arity : Nat) (all_args : List (Arg V)) :
    List (Arg V) :=
  all_args.take arity

/-- Ghost record of one filter or handler invocation: who was called, the
exact argument tuple, and what the call returned. -/
inductive CallRec (V : Type) where
  | handlerCall : Nat → List (Arg V) → Except String (HRes V) → CallRec V
  | filterCall : Nat → List (Arg V) → Except String Bool → CallRec V

/-- One `_Response`: the handler identity, the note, the dict objects
stored in the payload and context slots (by reference, hence only their
identities), and the handler's result. -/
structure Response (V : Type) where
  handler : Nat
  note : Note V
  payload : DId
  context : DId
  result : Option V
deriving DecidableEq, Repr

/-- State of the traversal loop of `Dispatcher.emit` (dispatch.py lines
148–172): the registry (threaded, to state that `emit` preserves it), the
`seen_handlers` set, the `async_calls` and `sync_responses` accumulators,
the current contents of the two shared dicts, and the ghost call log.
An `async_calls` entry records the handler identity and the length of the
captured argument tuple `get_args_to_pass(handler, handler_args)`. -/
structure TravSt (V : Type) where
  regs : Registry
  seen_handlers : List Nat
  async_calls : List (Nat × Nat)
  sync_responses : List (Response V)
  payload : Entries V
  context : Entries V
  calls : List (CallRec V)

/-- The tuple `handler_args = (note, typed_payload, context)`: the note and
the two shared dict objects with their current contents. -/
def handlerArgs {V : Type} (note : Note V) (pid cid : DId) (st : TravSt V) :
    List (Arg V) :=
  [Arg.note note, Arg.dict ⟨pid, st.payload⟩, Arg.dict ⟨cid, st.context⟩]

/-- `get_args_to_pass(handler, handler_args)` for a handler. -/
def syncArgs {V : Type} (henv : Nat → HandlerB V) (note : Note V)
    (pid cid : DId) (st : TravSt V) (h : Nat) : List (Arg V) :=
  get_args_to_pass (henv h).arity (handlerArgs note pid cid st)

/-- `get_args_to_pass(filter, filter_args)` for a filter. -/
def filterArgs {V : Type} (fenv : Nat → FilterB V) (note : Note V)
    (pid cid : DId) (st : TravSt V) (f : Nat) : List (Arg V) :=
  get_args_to_pass (fenv f).arity (handlerArgs note pid cid st)

/-- `seen_handlers.add(handler)` (line 156). -/
def markSeen {V : Type} (st : TravSt V) (h : Nat) : TravSt V :=
  { st with seen_handlers := st.seen_handlers ++ [h] }

/-- Record a filter invocation in the ghost log. -/
def logFilter {V : Type} (st : TravSt V) (f : Nat) (args : List (Arg V))
    (res : Except String Bool) : TravSt V :=
  { st with calls := st.calls ++ [CallRec.filterCall f args res] }

/-- Invoke a handler whose filter passed (dispatch.py lines 168–172):
an async handler is appended to `async_calls` with its captured argument
tuple; a sync handler runs now, its dict writes take effect, and a
`_Response` is appended — unless it raises, which aborts the emission. -/
def invokeHandler {V : Type} (henv : Nat → HandlerB V) (note : Note V)
    (pid cid : DId) (st : TravSt V) (h : Nat) :
    TravSt V × Option String :=
  if (henv h).isAsync then
    ({ st with async_calls :=
        st.async_calls ++ [(h, (syncArgs henv note pid cid st h).length)] },
      none)
  else
    match (henv h).run (syncArgs henv note pid cid st h) with
    | Except.error e =>
        ({ st with calls := st.calls ++
            [CallRec.handlerCall h (syncArgs henv note pid cid st h)
              (Except.error e)] },
          some e)
    | Except.ok hr =>
        ({ st with
            calls := st.calls ++
              [CallRec.handlerCall h (syncArgs henv note pid cid st h)
                (Except.ok hr)],
            payload := applyWrites st.payload hr.payloadWrites,
            context := applyWrites st.context hr.contextWrites,
            sync_responses :=
              st.sync_responses ++ [⟨h, note, pid, cid, hr.result⟩] },
          none)

/-- One iteration of the inner loop of `Dispatcher.emit` (lines 153–172):
skip a handler already in `seen_handlers`, otherwise mark it seen, check
the filter (a raising filter aborts the emission), and on pass invoke. -/
def processSub {V : Type} (henv : Nat → HandlerB V) (fenv : Nat → FilterB V)
    (note : Note V) (pid cid : DId) (st : TravSt V) (s : Subscription) :
    TravSt V × Option String :=
  if st.seen_handlers.contains s.handler then
    (st, none)
  else
    match s.filter with
    | none => invokeHandler henv note pid cid (markSeen st s.handler) s.handler
    | some f =>
        match (fenv f).run (filterArgs fenv note pid cid (markSeen st s.handler) f) with
        | Except.error e =>
            (logFilter (markSeen st s.handler) f
                (filterArgs fenv note pid cid (markSeen st s.handler) f)
                (Except.error e),
              some e)
        | Except.ok false =>
            (logFilter (markSeen st s.handler) f
                (filterArgs fenv note pid cid (markSeen st s.handler) f)
                (Except.ok false),
              none)
        | Except.ok true =>
            invokeHandler henv note pid cid
              (logFilter (markSeen st s.handler) f
                (filterArgs fenv note pid cid (markSeen st s.handler) f)
                (Except.ok true))
              s.handler

/-- Fold `processSub` over one type's subscription list, stopping at the
first raised error. -/
def foldSubs {V : Type} (henv : Nat → HandlerB V) (fenv : Nat → FilterB V)
    (note : Note V) (pid cid : DId) (st : TravSt V) :
    List Subscription → TravSt V × Option String
  | [] => (st, none)
  | s :: rest =>
      match processSub henv fenv note pid cid st s with
      | (st', none) => foldSubs henv fenv note pid cid st' rest
      | (st', some e) => (st', some e)

/-- The outer loop `for note_type in type(note).__mro__` (line 151): for
each type, consult the registry and run the inner loop over its
subscription list. -/
def foldMro {V : Type} (henv : Nat → HandlerB V) (fenv : Nat → FilterB V)
    (note : Note V) (pid cid : DId) (st : TravSt V) :
    List Nat → TravSt V × Option String
  | [] => (st, none)
  | t :: rest =>
      match foldSubs henv fenv note pid cid st (subsFor st.regs t) with
      | (st', none) => foldMro henv fenv note pid cid st' rest
      | (st', some e) => (st', some e)

/-- State of the async join phase (lines 173–177): the responses built so
far, the current contents of the shared dicts, the call log, and a counter
numbering the `{}` dicts allocated for response slots. -/
structure GatherSt (V : Type) where
  async_responses : List (Response V)
  payload : Entries V
  context : Entries V
  calls : List (CallRec V)
  nextFresh : Nat

/-- The captured argument tuple of a scheduled async call, rebuilt from the
live dict objects: the captured tuple holds references, so the coroutine
sees the dicts' current contents when it runs. -/
def asyncArgs {V : Type} (note : Note V) (pid cid : DId) (gst : GatherSt V)
    (argc : Nat) : List (Arg V) :=
  ([Arg.note note, Arg.dict ⟨pid, gst.payload⟩,
    Arg.dict ⟨cid, gst.context⟩] : List (Arg V)).take argc

/-- Run one scheduled async call: run the coroutine (a raise propagates out
of `gather`), apply its dict writes, and build its `_Response` — whose
payload slot is `args[1] if len(args) > 1 else {}` and context slot
`args[2] if len(args) > 2 else {}` (line 177); `args[0]` on an empty
tuple raises `IndexError`. -/
def runAsyncCall {V : Type} (henv : Nat → HandlerB V) (note : Note V)
    (pid cid : DId) (gst : GatherSt V) (c : Nat × Nat) :
    GatherSt V × Option String :=
  match (henv c.1).run (asyncArgs note pid cid gst c.2) with
  | Except.error e =>
      ({ gst with calls := gst.calls ++
          [CallRec.handlerCall c.1 (asyncArgs note pid cid gst c.2)
            (Except.error e)] },
        some e)
  | Except.ok hr =>
      if c.2 = 0 then
        ({ gst with calls := gst.calls ++
            [CallRec.handlerCall c.1 (asyncArgs note pid cid gst c.2)
              (Except.ok hr)] },
          some "IndexError")
      else
        ({ gst with
            calls := gst.calls ++
              [CallRec.handlerCall c.1 (asyncArgs note pid cid gst c.2)
                (Except.ok hr)],
            payload := applyWrites gst.payload hr.payloadWrites,
            context := applyWrites gst.context hr.contextWrites,
            async_responses := gst.async_responses ++
              [⟨c.1, note,
                (if 1 < c.2 then pid else DId.freshEmpty gst.nextFresh),
                (if 2 < c.2 then cid else DId.freshEmpty (gst.nextFresh + 1)),
                hr.result⟩],
            nextFresh := gst.nextFresh + 2 },
          none)

/-- `await asyncio.gather(...)`: run the scheduled calls in submission
order, stopping at the first propagated exception. -/
def foldAsync {V : Type} (henv : Nat → HandlerB V) (note : Note V)
    (pid cid : DId) (gst : GatherSt V) :
    List (Nat × Nat) → GatherSt V × Option String
  | [] => (gst, none)
  | c :: rest =>
      match runAsyncCall henv note pid cid gst c with
      | (gst', none) => foldAsync henv note pid cid gst' rest
      | (gst', some e) => (gst', some e)

/-- Everything observable about one `Dispatcher.emit` call: the registry
after the call, the identity of the context dict used, the final contents
of the two shared dicts (still held by the caller), the ghost call log and
internal bookkeeping lists, and the returned `Emission` (the list of
`_Response`s) or the propagated error. -/
structure EmitResult (V : Type) where
  regs : Registry
  contextId : DId
  contextEntries : Entries V
  payloadEntries : Entries V
  calls : List (CallRec V)
  sync_responses : List (Response V)
  async_responses : List (Response V)
  async_submitted : List (Nat × Nat)
  result : Except String (List (Response V))

/-- CPython's binding of the signature `emit(cls, note, *, context=None,
**payload)`: the keyword argument named `context` (if any) binds to the
`context` parameter; every other keyword argument goes into the `payload`
dict.  Hence the payload never contains a `context` key. -/
def bindEmitKwargs {V : Type} (kwargs : List (Key × V)) :
    Option V × Entries V :=
  (dictGet kwargs "context", kwargs.filter (fun kv => kv.1 ≠ "context"))

/-- `if context is None: context = {}` (lines 145–146): the context dict
object used by this emission — the caller's, or a fresh empty one. -/
def ctxRef {V : Type} (context : Option (DRef V)) : DRef V :=
  match context with
  | none => ⟨DId.freshCtx, []⟩
  | some c => c

/-- The traversal state at the start of `emit`: empty accumulators, the
fresh `typed_payload = dict(payload)` contents and the context contents. -/
def initSt {V : Type} (regs : Registry) (payload : Entries V) (ctx : DRef V) :
    TravSt V :=
  ⟨regs, [], [], [], payload, ctx.entries, []⟩

/-- `Dispatcher.emit(note, context=..., **payload)` (dispatch.py lines
96–178).  `context` is the caller's context dict object or `none`; and
`payload` holds the other keyword arguments, copied into the fresh
`typed_payload` dict (identity `DId.payloadDict`). -/
def emit {V : Type} (henv : Nat → HandlerB V) (fenv : Nat → FilterB V)
    (regs : Registry) (note : Note V) (context : Option (DRef V))
    (payload : Entries V) : EmitResult V :=
  match foldMro henv fenv note DId.payloadDict (ctxRef context).id
      (initSt regs payload (ctxRef context)) note.mro with
  | (st, some e) =>
      ⟨st.regs, (ctxRef context).id, st.context, st.payload, st.calls,
        st.sync_responses, [], st.async_calls, Except.error e⟩
  | (st, none) =>
      match foldAsync henv note DId.payloadDict (ctxRef context).id
          ⟨[], st.payload, st.context, st.calls, 0⟩ st.async_calls with
      | (gst, some e) =>
          ⟨st.regs, (ctxRef context).id, gst.context, gst.payload, gst.calls,
            st.sync_responses, gst.async_responses, st.async_calls,
            Except.error e⟩
      | (gst, none) =>
          ⟨st.regs, (ctxRef context).id, gst.context, gst.payload, gst.calls,
            st.sync_responses, gst.async_responses, st.async_calls,
            Except.ok (st.sync_responses ++ gst.async_responses)⟩

/-- Number of `_Response`s attributed to handler `h`. -/
def hRespCount {V : Type} (h : Nat) (rs : List (Response V)) : Nat :=
  rs.countP (fun r => r.handler == h)

/-- Number of scheduled async calls of handler `h`. -/
def hAcallCount (h : Nat) (ac : List (Nat × Nat)) : Nat :=
  ac.countP (fun c => c.1 == h)

/-- Whether a logged call is an invocation of handler `h` (filter calls do
not count as handler invocations). -/
def isHCallOf {V : Type} (h : Nat) : CallRec V → Bool
  | CallRec.handlerCall h' _ _ => h' == h
  | CallRec.filterCall _ _ _ => false

/-- Number of logged invocations of handler `h`. -/
def hCallCount {V : Type} (h : Nat) (cs : List (CallRec V)) : Nat :=
  cs.countP (isHCallOf h)

/-- A handler/filter argument tuple has the dispatch shape: the leading
prefix, of the callee's declared length, of `(note, typed_payload,
context)`, where the two dict slots are the shared dict objects. -/
def argShape {V : Type} (note : Note V) (pid cid : DId) (n : Nat)
    (args : List (Arg V)) : Prop :=
  ∃ pe ce, args =
    ([Arg.note note, Arg.dict ⟨pid, pe⟩, Arg.dict ⟨cid, ce⟩] : List (Arg V)).take n

/-- Every logged call received arguments of the dispatch shape for its own
declared arity. -/
def callShape {V : Type} (henv : Nat → HandlerB V) (fenv : Nat → FilterB V)
    (note : Note V) (pid cid : DId) : CallRec V → Prop
  | CallRec.handlerCall h args _ => argShape note pid cid (henv h).arity args
  | CallRec.filterCall f args _ => argShape note pid cid (fenv f).arity args

/-- The logged call returned normally (did not raise). -/
def callOk {V : Type} : CallRec V → Prop
  | CallRec.handlerCall _ _ (Except.ok _) => True
  | CallRec.handlerCall _ _ (Except.error _) => False
  | CallRec.filterCall _ _ (Except.ok _) => True
  | CallRec.filterCall _ _ (Except.error _) => False

/-- All subscriptions consulted during one emission, in traversal order:
most-derived type first, registration order within a type. -/
def allSubs (regs : Registry) (mro : List Nat) : List Subscription :=
  mro.flatMap (subsFor regs)

/-- Total number of invocations attributed to `h` in the traversal state:
sync responses plus scheduled async calls. -/
def hMeasure {V : Type} (h : Nat) (st : TravSt V) : Nat :=
  hRespCount h st.sync_responses + hAcallCount h st.async_calls

/-- At-most-once invariant for handler `h` over the traversal state:
an unseen handler has no invocations yet, and no handler ever has more
than one. -/
def AMO {V : Type} (h : Nat) (st : TravSt V) : Prop :=
  (st.seen_handlers.contains h = false → hMeasure h st = 0) ∧ hMeasure h st ≤ 1

/-- A subscription's filter is guaranteed to pass: absent, or a filter
that returns `True` on every input. -/
def passAlways {V : Type} (fenv : Nat → FilterB V) (s : Subscription) : Prop :=
  s.filter = none ∨
    ∃ f, s.filter = some f ∧ ∀ args, (fenv f).run args = Except.ok true

/-- Concrete handler environment (over `V := Nat`) used to exercise the
dispatcher on small inputs: 0 = sync arity-3 writing `k := 5` into the
context; 1 = sync arity-3 returning `None`; 2 = async arity-1;
3 = sync arity-3 raising; 4 = async arity-2. -/
def demoHandlers : Nat → HandlerB Nat
  | 0 => ⟨3, false, fun _ => Except.ok ⟨some 10, [], [("k", 5)]⟩⟩
  | 1 => ⟨3, false, fun _ => Except.ok ⟨none, [], []⟩⟩
  | 2 => ⟨1, true, fun _ => Except.ok ⟨some 20, [], []⟩⟩
  | 3 => ⟨3, false, fun _ => Except.error "boom"⟩
  | 4 => ⟨2, true, fun _ => Except.ok ⟨some 40, [], []⟩⟩
  | _ => ⟨3, false, fun _ => Except.ok ⟨none, [], []⟩⟩

/-- Concrete filter environment: 0 always rejects, 1 always passes,
2 rejects with arity 1, anything else passes with arity 1. -/
def demoFilters : Nat → FilterB Nat
  | 0 => ⟨3, fun _ => Except.ok false⟩
  | 1 => ⟨3, fun _ => Except.ok true⟩
  | 2 => ⟨1, fun _ => Except.ok false⟩
  | _ => ⟨1, fun _ => Except.ok true⟩

theorem contains_iff (l : List Nat) (x : Nat) :
    l.contains x = true ↔ x ∈ l := by
  simp [List.contains, List.elem_iff]

/-- What one `invokeHandler` step does to the traversal state. -/
theorem invokeHandler_step {V : Type} (henv : Nat → HandlerB V)
    (fenv : Nat → FilterB V) (note : Note V) (pid cid : DId) (st : TravSt V)
    (h : Nat) (st' : TravSt V) (o : Option String)
    (hps : invokeHandler henv note pid cid st h = (st', o)) :
    st'.regs = st.regs ∧ st'.seen_handlers = st.seen_handlers ∧
    ∃ t u cs,
      st'.sync_responses = st.sync_responses ++ t ∧
      st'.async_calls = st.async_calls ++ u ∧
      st'.calls = st.calls ++ cs ∧
      (t = [] ∨ ∃ r, t = [r] ∧ r.handler = h ∧ r.note = note ∧ r.payload = pid ∧
        r.context = cid ∧ (henv h).isAsync = false) ∧
      (u = [] ∨ u = [(h, min (henv h).arity 3)] ∧ (henv h).isAsync = true) ∧
      (t = [] ∨ u = []) ∧
      (∀ c ∈ cs, callShape henv fenv note pid cid c ∧
        ∀ h' args res, c = CallRec.handlerCall h' args res → h' = h) ∧
      (o = none → ∀ c ∈ cs, callOk c) ∧
      (o = none → t ≠ [] ∨ u ≠ []) := by
  unfold invokeHandler at hps
  split at hps
  · next hasync =>
      injection hps with h1 h2
      subst h1; subst h2
      have hlen : (syncArgs henv note pid cid st h).length = min (henv h).arity 3 := by
        simp [syncArgs, get_args_to_pass, handlerArgs]
      refine ⟨rfl, rfl, [], [(h, (syncArgs henv note pid cid st h).length)], [],
        by simp, rfl, by simp,
        Or.inl rfl, Or.inr ⟨by rw [hlen], hasync⟩, Or.inl rfl, by simp, by simp,
        fun _ => Or.inr (by simp)⟩
  · next hasync =>
      rw [Bool.not_eq_true] at hasync
      split at hps
      · next e heq =>
          injection hps with h1 h2
          subst h1; subst h2
          refine ⟨rfl, rfl, [], [],
            [CallRec.handlerCall h (syncArgs henv note pid cid st h)
              (Except.error e)],
            by simp, by simp, rfl, Or.inl rfl, Or.inl rfl, Or.inl rfl,
            ?_, by simp, by simp⟩
          intro c hc
          simp only [List.mem_singleton] at hc
          subst hc
          refine ⟨⟨st.payload, st.context, rfl⟩, ?_⟩
          intro h' args res hceq
          injection hceq with e1 e2 e3
          exact e1.symm
      · next hr heq =>
          injection hps with h1 h2
          subst h1; subst h2
          refine ⟨rfl, rfl, [⟨h, note, pid, cid, hr.result⟩], [],
            [CallRec.handlerCall h (syncArgs henv note pid cid st h)
              (Except.ok hr)],
            rfl, by simp, rfl,
            Or.inr ⟨_, rfl, rfl, rfl, rfl, rfl, hasync⟩, Or.inl rfl,
            Or.inr rfl, ?_, ?_, fun _ => Or.inl (by simp)⟩
          · intro c hc
            simp only [List.mem_singleton] at hc
            subst hc
            refine ⟨⟨st.payload, st.context, rfl⟩, ?_⟩
            intro h' args res hceq
            injection hceq with e1 e2 e3
            exact e1.symm
          · intro _ c hc
            simp only [List.mem_singleton] at hc
            subst hc
            simp [callOk]

/-- What one `processSub` step does to the traversal state. -/
theorem processSub_step {V : Type} (henv : Nat → HandlerB V)
    (fenv : Nat → FilterB V) (note : Note V) (pid cid : DId) (st : TravSt V)
    (s : Subscription) (st' : TravSt V) (o : Option String)
    (hps : processSub henv fenv note pid cid st s = (st', o)) :
    st'.regs = st.regs ∧
    st'.seen_handlers =
      (if st.seen_handlers.contains s.handler then st.seen_handlers
       else st.seen_handlers ++ [s.handler]) ∧
    (st.seen_handlers.contains s.handler = true → st' = st ∧ o = none) ∧
    ∃ t u cs,
      st'.sync_responses = st.sync_responses ++ t ∧
      st'.async_calls = st.async_calls ++ u ∧
      st'.calls = st.calls ++ cs ∧
      (t = [] ∨ ∃ r, t = [r] ∧ r.handler = s.handler ∧ r.note = note ∧
        r.payload = pid ∧ r.context = cid ∧ (henv s.handler).isAsync = false) ∧
      (u = [] ∨ u = [(s.handler, min (henv s.handler).arity 3)] ∧
        (henv s.handler).isAsync = true) ∧
      (t = [] ∨ u = []) ∧
      (∀ c ∈ cs, callShape henv fenv note pid cid c ∧
        ∀ h' args res, c = CallRec.handlerCall h' args res → h' = s.handler) ∧
      (o = none → ∀ c ∈ cs, callOk c) ∧
      ((st.seen_handlers.contains s.handler = false ∧ o = none ∧
          passAlways fenv s) → t ≠ [] ∨ u ≠ []) := by
  unfold processSub at hps
  split at hps
  · next hc =>
      injection hps with h1 h2
      subst h1; subst h2
      refine ⟨rfl, by rw [if_pos hc], fun _ => ⟨rfl, rfl⟩, [], [], [],
        by simp, by simp, by simp, Or.inl rfl, Or.inl rfl, Or.inl rfl,
        by simp, by simp, ?_⟩
      rintro ⟨hc', -, -⟩
      rw [hc] at hc'
      cases hc'
  · next hc =>
      split at hps
      · next hfil =>
          obtain ⟨hregs, hseen, t, u, cs, h1, h2, h3, h4, h5, h6, h7, h8, h9⟩ :=
            invokeHandler_step henv fenv note pid cid (markSeen st s.handler)
              s.handler st' o hps
          refine ⟨hregs, ?_, fun hcc => absurd hcc hc, t, u, cs,
            h1, h2, h3, h4, h5, h6, h7, h8, ?_⟩
          · rw [hseen, if_neg hc]; rfl
          · rintro ⟨-, ho, -⟩
            exact h9 ho
      · next f hfil =>
          split at hps
          · next e heq =>
              injection hps with h1 h2
              subst h1; subst h2
              refine ⟨rfl, by rw [if_neg hc]; rfl, fun hcc => absurd hcc hc,
                [], [],
                [CallRec.filterCall f
                  (filterArgs fenv note pid cid (markSeen st s.handler) f)
                  (Except.error e)],
                by simp [logFilter, markSeen], by simp [logFilter, markSeen],
                rfl, Or.inl rfl, Or.inl rfl, Or.inl rfl,
                ?_, by simp, by rintro ⟨-, ho, -⟩; cases ho⟩
              intro c hcm
              simp only [List.mem_singleton] at hcm
              subst hcm
              refine ⟨⟨st.payload, st.context, rfl⟩, ?_⟩
              intro h' args res hceq
              cases hceq
          · next heq =>
              injection hps with h1 h2
              subst h1; subst h2
              refine ⟨rfl, by rw [if_neg hc]; rfl, fun hcc => absurd hcc hc,
                [], [],
                [CallRec.filterCall f
                  (filterArgs fenv note pid cid (markSeen st s.handler) f)
                  (Except.ok false)],
                by simp [logFilter, markSeen], by simp [logFilter, markSeen],
                rfl, Or.inl rfl, Or.inl rfl, Or.inl rfl,
                ?_, ?_, ?_⟩
              · intro c hcm
                simp only [List.mem_singleton] at hcm
                subst hcm
                refine ⟨⟨st.payload, st.context, rfl⟩, ?_⟩
                intro h' args res hceq
                cases hceq
              · intro _ c hcm
                simp only [List.mem_singleton] at hcm
                subst hcm
                simp [callOk]
              · rintro ⟨-, -, hpass⟩
                rcases hpass with hnone | ⟨f', hf', hall⟩
                · rw [hfil] at hnone; cases hnone
                · rw [hfil] at hf'
                  injection hf' with hff
                  subst hff
                  have hcontra :=
                    hall (filterArgs fenv note pid cid (markSeen st s.handler) f)
                  rw [heq] at hcontra
                  simp at hcontra
          · next heq =>
              obtain ⟨hregs, hseen, t, u, cs, h1, h2, h3, h4, h5, h6, h7, h8, h9⟩ :=
                invokeHandler_step henv fenv note pid cid
                  (logFilter (markSeen st s.handler) f
                    (filterArgs fenv note pid cid (markSeen st s.handler) f)
                    (Except.ok true))
                  s.handler st' o hps
              refine ⟨hregs, ?_, fun hcc => absurd hcc hc,
                t, u,
                (CallRec.filterCall f
                  (filterArgs fenv note pid cid (markSeen st s.handler) f)
                  (Except.ok true)) :: cs,
                h1, h2, ?_, h4, h5, h6, ?_, ?_, ?_⟩
              · rw [hseen, if_neg hc]; rfl
              · rw [h3]; simp [logFilter, markSeen]
              · intro c hcm
                rcases List.mem_cons.mp hcm with rfl | hcm
                · refine ⟨⟨st.payload, st.context, rfl⟩, ?_⟩
                  intro h' args res hceq
                  cases hceq
                · exact h7 c hcm
              · intro ho c hcm
                rcases List.mem_cons.mp hcm with rfl | hcm
                · simp [callOk]
                · exact h8 ho c hcm
              · rintro ⟨-, ho, -⟩
                exact h9 ho

theorem contains_append_ne (l : List Nat) (a h : Nat) (hne : a ≠ h) :
    (l ++ [a]).contains h = l.contains h := by
  by_cases hm : h ∈ l
  · rw [(contains_iff _ _).mpr hm, (contains_iff _ _).mpr (List.mem_append_left _ hm)]
  · have h1 : l.contains h = false := by
      rw [Bool.eq_false_iff]
      intro hh; exact hm ((contains_iff _ _).mp hh)
    have h2 : (l ++ [a]).contains h = false := by
      rw [Bool.eq_false_iff]
      intro hh
      rcases List.mem_append.mp ((contains_iff _ _).mp hh) with hx | hx
      · exact hm hx
      · simp only [List.mem_singleton] at hx
        exact hne hx.symm
    rw [h1, h2]

theorem contains_append_self (l : List Nat) (h : Nat) :
    (l ++ [h]).contains h = true :=
  (contains_iff _ _).mpr (List.mem_append_right _ (List.mem_singleton_self h))

theorem take_min3 {α : Type} (n : Nat) (x y z : α) :
    ([x, y, z] : List α).take (min n 3) = ([x, y, z] : List α).take n := by
  rcases n with _ | _ | _ | m
  · rfl
  · rfl
  · rfl
  · have hm : min (m + 3) 3 = 3 := by omega
    rw [hm, List.take_of_length_le (by simp only [List.length_cons, List.length_nil]; omega),
      List.take_of_length_le (by simp only [List.length_cons, List.length_nil]; omega)]

theorem foldSubs_append {V : Type} (henv : Nat → HandlerB V)
    (fenv : Nat → FilterB V) (note : Note V) (pid cid : DId)
    (a b : List Subscription) : ∀ st : TravSt V,
    foldSubs henv fenv note pid cid st (a ++ b) =
      match foldSubs henv fenv note pid cid st a with
      | (st', none) => foldSubs henv fenv note pid cid st' b
      | (st', some e) => (st', some e) := by
  induction a with
  | nil => intro st; rfl
  | cons s rest ih =>
      intro st
      simp only [List.cons_append, foldSubs]
      rcases hps : processSub henv fenv note pid cid st s with ⟨st1, o⟩
      cases o with
      | none => exact ih st1
      | some e => rfl

/-- Cumulative effect of the inner loop over a subscription list. -/
theorem foldSubs_facts {V : Type} (henv : Nat → HandlerB V)
    (fenv : Nat → FilterB V) (note : Note V) (pid cid : DId)
    (l : List Subscription) : ∀ (st st' : TravSt V) (o : Option String),
    foldSubs henv fenv note pid cid st l = (st', o) →
    st'.regs = st.regs ∧
    (∃ pre, st'.seen_handlers = st.seen_handlers ++ pre) ∧
    ∃ t u cs,
      st'.sync_responses = st.sync_responses ++ t ∧
      st'.async_calls = st.async_calls ++ u ∧
      st'.calls = st.calls ++ cs ∧
      List.Sublist (t.map Response.handler) (l.map Subscription.handler) ∧
      List.Sublist (u.map Prod.fst) (l.map Subscription.handler) ∧
      (∀ r ∈ t, r.note = note ∧ r.payload = pid ∧ r.context = cid ∧
        (henv r.handler).isAsync = false) ∧
      (∀ p ∈ u, (henv p.1).isAsync = true ∧ p.2 = min (henv p.1).arity 3) ∧
      (∀ c ∈ cs, callShape henv fenv note pid cid c) ∧
      (o = none → ∀ c ∈ cs, callOk c) := by
  induction l with
  | nil =>
      intro st st' o hf
      simp only [foldSubs] at hf
      injection hf with h1 h2
      subst h1; subst h2
      exact ⟨rfl, ⟨[], by simp⟩, [], [], [], by simp, by simp, by simp,
        List.nil_sublist _, List.nil_sublist _, by simp, by simp, by simp,
        by simp⟩
  | cons s l ih =>
      intro st st' o hf
      simp only [foldSubs] at hf
      rcases hps : processSub henv fenv note pid cid st s with ⟨st1, o1⟩
      rw [hps] at hf
      obtain ⟨sregs, sseen, -, t1, u1, cs1, s1, s2, s3, s4, s5, -, s7, s8, -⟩ :=
        processSub_step henv fenv note pid cid st s st1 o1 hps
      have hpre1 : ∃ pre1, st1.seen_handlers = st.seen_handlers ++ pre1 := by
        cases hcon : st.seen_handlers.contains s.handler
        · exact ⟨[s.handler], by rw [sseen, if_neg (by rw [hcon]; simp)]⟩
        · exact ⟨[], by rw [sseen, if_pos hcon]; simp⟩
      have ht1 : ∀ r ∈ t1, r.handler = s.handler ∧ r.note = note ∧
          r.payload = pid ∧ r.context = cid ∧ (henv r.handler).isAsync = false := by
        rcases s4 with rfl | ⟨r, rfl, hr1, hr2, hr3, hr4, hr5⟩
        · intro r hr; cases hr
        · intro r' hr'
          simp only [List.mem_singleton] at hr'
          subst hr'
          exact ⟨hr1, hr2, hr3, hr4, by rw [hr1]; exact hr5⟩
      have hu1 : ∀ p ∈ u1, p.1 = s.handler ∧ (henv p.1).isAsync = true ∧
          p.2 = min (henv p.1).arity 3 := by
        rcases s5 with rfl | ⟨rfl, ha⟩
        · intro p hp; cases hp
        · intro p hp
          simp only [List.mem_singleton] at hp
          subst hp
          exact ⟨rfl, ha, rfl⟩
      have ht1sub : List.Sublist (t1.map Response.handler) [s.handler] := by
        rcases s4 with rfl | ⟨r, rfl, hr1, -⟩
        · exact List.nil_sublist _
        · simp only [List.map_cons, List.map_nil, hr1]
          exact List.Sublist.refl _
      have hu1sub : List.Sublist (u1.map Prod.fst) [s.handler] := by
        rcases s5 with rfl | ⟨rfl, -⟩
        · exact List.nil_sublist _
        · exact List.Sublist.refl _
      have hsingle : List.Sublist ([s.handler]) (s.handler :: l.map Subscription.handler) :=
        (List.nil_sublist _).cons₂ s.handler
      cases o1 with
      | some e =>
          injection hf with h1 h2
          subst h1; subst h2
          refine ⟨sregs, hpre1, t1, u1, cs1, s1, s2, s3,
            ht1sub.trans hsingle, hu1sub.trans hsingle,
            fun r hr => (ht1 r hr).2,
            fun p hp => ((hu1 p hp).2),
            fun c hc => (s7 c hc).1, by intro ho; cases ho⟩
      | none =>
          obtain ⟨iregs, ⟨pre2, iseen⟩, t2, u2, cs2, i1, i2, i3, i4, i5, i6, i7,
            i8, i9⟩ := ih st1 st' o hf
          have hseen2 : ∃ pre, st'.seen_handlers = st.seen_handlers ++ pre := by
            rcases hpre1 with ⟨pre1, hp⟩
            refine ⟨pre1 ++ pre2, ?_⟩
            rw [iseen, hp, List.append_assoc]
          refine ⟨iregs.trans sregs, hseen2, t1 ++ t2, u1 ++ u2, cs1 ++ cs2,
            ?_, ?_, ?_, ?_, ?_, ?_, ?_, ?_, ?_⟩
          · rw [i1, s1, List.append_assoc]
          · rw [i2, s2, List.append_assoc]
          · rw [i3, s3, List.append_assoc]
          · rw [List.map_append]
            exact List.Sublist.append ht1sub i4
          · rw [List.map_append]
            exact List.Sublist.append hu1sub i5
          · intro r hr
            rcases List.mem_append.mp hr with hr | hr
            · exact (ht1 r hr).2
            · exact i6 r hr
          · intro p hp
            rcases List.mem_append.mp hp with hp | hp
            · exact (hu1 p hp).2
            · exact i7 p hp
          · intro c hc
            rcases List.mem_append.mp hc with hc | hc
            · exact (s7 c hc).1
            · exact i8 c hc
          · intro ho c hc
            rcases List.mem_append.mp hc with hc | hc
            · exact s8 rfl c hc
            · exact i9 ho c hc

theorem hRespCount_append {V : Type} (h : Nat) (a b : List (Response V)) :
    hRespCount h (a ++ b) = hRespCount h a + hRespCount h b :=
  List.countP_append _ a b

theorem hAcallCount_append (h : Nat) (a b : List (Nat × Nat)) :
    hAcallCount h (a ++ b) = hAcallCount h a + hAcallCount h b :=
  List.countP_append _ a b

theorem hCallCount_append {V : Type} (h : Nat) (a b : List (CallRec V)) :
    hCallCount h (a ++ b) = hCallCount h a + hCallCount h b :=
  List.countP_append _ a b

theorem hRespCount_zero_of_ne {V : Type} (h a : Nat) (hne : a ≠ h)
    (t : List (Response V)) (ht : ∀ r ∈ t, r.handler = a) :
    hRespCount h t = 0 := by
  rw [hRespCount, List.countP_eq_zero]
  intro r hr
  simp only [beq_iff_eq]
  rw [ht r hr]
  exact hne

theorem hAcallCount_zero_of_ne (h a : Nat) (hne : a ≠ h)
    (u : List (Nat × Nat)) (hu : ∀ p ∈ u, p.1 = a) :
    hAcallCount h u = 0 := by
  rw [hAcallCount, List.countP_eq_zero]
  intro p hp
  simp only [beq_iff_eq]
  rw [hu p hp]
  exact hne

theorem hCallCount_zero_of_ne {V : Type} (h a : Nat) (hne : a ≠ h)
    (cs : List (CallRec V))
    (hcs : ∀ c ∈ cs, ∀ h' args res, c = CallRec.handlerCall h' args res → h' = a) :
    hCallCount h cs = 0 := by
  rw [hCallCount, List.countP_eq_zero]
  intro c hc
  cases c with
  | handlerCall h' args res =>
      have hha : h' = a := hcs _ hc h' args res rfl
      simp only [isHCallOf, beq_iff_eq]
      rw [hha]
      exact hne
  | filterCall f args res => simp [isHCallOf]

theorem hCallCount_filterCalls_zero {V : Type} (h : Nat)
    (cs : List (CallRec V))
    (hcs : ∀ c ∈ cs, ∀ h' args res, c ≠ CallRec.handlerCall h' args res) :
    hCallCount h cs = 0 := by
  rw [hCallCount, List.countP_eq_zero]
  intro c hc
  cases c with
  | handlerCall h' args res => exact absurd rfl (hcs _ hc h' args res)
  | filterCall f args res => simp [isHCallOf]

/-- A `processSub` step on a subscription of a different handler changes
nothing attributed to `h`. -/
theorem processSub_counts_ne {V : Type} (henv : Nat → HandlerB V)
    (fenv : Nat → FilterB V) (note : Note V) (pid cid : DId) (st : TravSt V)
    (s : Subscription) (st1 : TravSt V) (o1 : Option String)
    (hps : processSub henv fenv note pid cid st s = (st1, o1))
    (h : Nat) (hne : s.handler ≠ h) :
    hRespCount h st1.sync_responses = hRespCount h st.sync_responses ∧
    hAcallCount h st1.async_calls = hAcallCount h st.async_calls ∧
    hCallCount h st1.calls = hCallCount h st.calls ∧
    st1.seen_handlers.contains h = st.seen_handlers.contains h := by
  obtain ⟨-, sseen, -, t1, u1, cs1, s1, s2, s3, s4, s5, -, s7, -, -⟩ :=
    processSub_step henv fenv note pid cid st s st1 o1 hps
  have ht1 : ∀ r ∈ t1, r.handler = s.handler := by
    rcases s4 with rfl | ⟨r, rfl, hr1, -⟩
    · intro r hr; cases hr
    · intro r' hr'
      simp only [List.mem_singleton] at hr'
      subst hr'
      exact hr1
  have hu1 : ∀ p ∈ u1, p.1 = s.handler := by
    rcases s5 with rfl | ⟨rfl, -⟩
    · intro p hp; cases hp
    · intro p hp
      simp only [List.mem_singleton] at hp
      subst hp
      rfl
  refine ⟨?_, ?_, ?_, ?_⟩
  · rw [s1, hRespCount_append, hRespCount_zero_of_ne h s.handler hne t1 ht1,
      Nat.add_zero]
  · rw [s2, hAcallCount_append, hAcallCount_zero_of_ne h s.handler hne u1 hu1,
      Nat.add_zero]
  · rw [s3, hCallCount_append,
      hCallCount_zero_of_ne h s.handler hne cs1 (fun c hc => (s7 c hc).2),
      Nat.add_zero]
  · rw [sseen]
    by_cases hcs : st.seen_handlers.contains s.handler = true
    · rw [if_pos hcs]
    · rw [if_neg hcs]
      exact contains_append_ne _ _ _ hne

/-- Once `h` is in `seen_handlers`, the rest of the traversal neither
invokes `h` nor produces anything attributed to `h`. -/
theorem foldSubs_seen {V : Type} (henv : Nat → HandlerB V)
    (fenv : Nat → FilterB V) (note : Note V) (pid cid : DId) (h : Nat)
    (l : List Subscription) : ∀ (st st' : TravSt V) (o : Option String),
    st.seen_handlers.contains h = true →
    foldSubs henv fenv note pid cid st l = (st', o) →
    st'.seen_handlers.contains h = true ∧
    hRespCount h st'.sync_responses = hRespCount h st.sync_responses ∧
    hAcallCount h st'.async_calls = hAcallCount h st.async_calls ∧
    hCallCount h st'.calls = hCallCount h st.calls := by
  induction l with
  | nil =>
      intro st st' o hcon hf
      simp only [foldSubs] at hf
      injection hf with h1 h2
      subst h1
      exact ⟨hcon, rfl, rfl, rfl⟩
  | cons s l ih =>
      intro st st' o hcon hf
      simp only [foldSubs] at hf
      rcases hps : processSub henv fenv note pid cid st s with ⟨st1, o1⟩
      rw [hps] at hf
      have hstep : st1.seen_handlers.contains h = true ∧
          hRespCount h st1.sync_responses = hRespCount h st.sync_responses ∧
          hAcallCount h st1.async_calls = hAcallCount h st.async_calls ∧
          hCallCount h st1.calls = hCallCount h st.calls := by
        by_cases hsh : s.handler = h
        · have hcs : st.seen_handlers.contains s.handler = true := by
            rw [hsh]; exact hcon
          obtain ⟨-, -, hskip, -⟩ :=
            processSub_step henv fenv note pid cid st s st1 o1 hps
          obtain ⟨rfl, -⟩ := hskip hcs
          exact ⟨hcon, rfl, rfl, rfl⟩
        · obtain ⟨c1, c2, c3, c4⟩ :=
            processSub_counts_ne henv fenv note pid cid st s st1 o1 hps h hsh
          exact ⟨by rw [c4]; exact hcon, c1, c2, c3⟩
      cases o1 with
      | some e =>
          injection hf with h1 h2
          subst h1
          exact hstep
      | none =>
          obtain ⟨k1, k2, k3, k4⟩ := ih st1 st' o hstep.1 hf
          exact ⟨k1, k2.trans hstep.2.1, k3.trans hstep.2.2.1,
            k4.trans hstep.2.2.2⟩

/-- A traversal over subscriptions that never mention `h` changes nothing
attributed to `h`. -/
theorem foldSubs_not_mem {V : Type} (henv : Nat → HandlerB V)
    (fenv : Nat → FilterB V) (note : Note V) (pid cid : DId) (h : Nat)
    (l : List Subscription) (hl : ∀ s ∈ l, s.handler ≠ h) :
    ∀ (st st' : TravSt V) (o : Option String),
    foldSubs henv fenv note pid cid st l = (st', o) →
    st'.seen_handlers.contains h = st.seen_handlers.contains h ∧
    hRespCount h st'.sync_responses = hRespCount h st.sync_responses ∧
    hAcallCount h st'.async_calls = hAcallCount h st.async_calls ∧
    hCallCount h st'.calls = hCallCount h st.calls := by
  induction l with
  | nil =>
      intro st st' o hf
      simp only [foldSubs] at hf
      injection hf with h1 h2
      subst h1
      exact ⟨rfl, rfl, rfl, rfl⟩
  | cons s l ih =>
      intro st st' o hf
      simp only [foldSubs] at hf
      rcases hps : processSub henv fenv note pid cid st s with ⟨st1, o1⟩
      rw [hps] at hf
      obtain ⟨c1, c2, c3, c4⟩ :=
        processSub_counts_ne henv fenv note pid cid st s st1 o1 hps h
          (hl s (List.mem_cons_self s l))
      cases o1 with
      | some e =>
          injection hf with h1 h2
          subst h1
          exact ⟨c4, c1, c2, c3⟩
      | none =>
          obtain ⟨k1, k2, k3, k4⟩ :=
            ih (fun s' hs' => hl s' (List.mem_cons_of_mem s hs')) st1 st' o hf
          exact ⟨k1.trans c4, k2.trans c1, k3.trans c2, k4.trans c3⟩

/-- The at-most-once invariant is preserved by the inner loop. -/
theorem foldSubs_amo {V : Type} (henv : Nat → HandlerB V)
    (fenv : Nat → FilterB V) (note : Note V) (pid cid : DId) (h : Nat)
    (l : List Subscription) : ∀ (st st' : TravSt V) (o : Option String),
    AMO h st →
    foldSubs henv fenv note pid cid st l = (st', o) →
    AMO h st' := by
  induction l with
  | nil =>
      intro st st' o ha hf
      simp only [foldSubs] at hf
      injection hf with h1 h2
      subst h1
      exact ha
  | cons s l ih =>
      intro st st' o ha hf
      simp only [foldSubs] at hf
      rcases hps : processSub henv fenv note pid cid st s with ⟨st1, o1⟩
      rw [hps] at hf
      have hstep : AMO h st1 := by
        by_cases hsh : s.handler = h
        · by_cases hcs : st.seen_handlers.contains s.handler = true
          · obtain ⟨-, -, hskip, -⟩ :=
              processSub_step henv fenv note pid cid st s st1 o1 hps
            obtain ⟨rfl, -⟩ := hskip hcs
            exact ha
          · have hconf : st.seen_handlers.contains h = false := by
              rw [← hsh]
              rw [Bool.eq_false_iff]
              exact hcs
            have hm0 : hMeasure h st = 0 := ha.1 hconf
            obtain ⟨-, sseen, -, t1, u1, cs1, s1, s2, -, s4, s5, s6, -, -, -⟩ :=
              processSub_step henv fenv note pid cid st s st1 o1 hps
            have ht1c : hRespCount h t1 ≤ 1 := by
              rcases s4 with rfl | ⟨r, rfl, -⟩
              · simp [hRespCount]
              · simp [hRespCount, List.countP_cons]
                split <;> simp
            have hu1c : hAcallCount h u1 ≤ 1 := by
              rcases s5 with rfl | ⟨rfl, -⟩
              · simp [hAcallCount]
              · simp [hAcallCount, List.countP_cons]
                split <;> simp
            have hsum : hRespCount h t1 + hAcallCount h u1 ≤ 1 := by
              rcases s6 with rfl | rfl
              · simpa [hRespCount] using hu1c
              · simpa [hAcallCount] using ht1c
            have hm1 : hMeasure h st1 ≤ 1 := by
              rw [hMeasure, s1, s2, hRespCount_append, hAcallCount_append]
              have e1 : hRespCount h st.sync_responses = 0 := by
                have := ha.1 hconf
                rw [hMeasure] at this
                omega
              have e2 : hAcallCount h st.async_calls = 0 := by
                have := ha.1 hconf
                rw [hMeasure] at this
                omega
              rw [e1, e2]
              omega
            have hcon1 : st1.seen_handlers.contains h = true := by
              rw [sseen, if_neg hcs, ← hsh]
              exact contains_append_self _ _
            exact ⟨(by rw [hcon1]; intro hcf; cases hcf), hm1⟩
        · obtain ⟨c1, c2, c3, c4⟩ :=
            processSub_counts_ne henv fenv note pid cid st s st1 o1 hps h hsh
          have hm : hMeasure h st1 = hMeasure h st := by
            rw [hMeasure, hMeasure, c1, c2]
          exact ⟨by rw [c4, hm]; exact ha.1, by rw [hm]; exact ha.2⟩
      cases o1 with
      | some e =>
          injection hf with h1 h2
          subst h1
          exact hstep
      | none => exact ih st1 st' o hstep hf

/-- The outer loop over the mro is the inner loop over the flattened,
traversal-ordered subscription list (the registry is never modified, so
the per-type lookups all read the same registry). -/
theorem foldMro_flatten {V : Type} (henv : Nat → HandlerB V)
    (fenv : Nat → FilterB V) (note : Note V) (pid cid : DId)
    (mros : List Nat) : ∀ st : TravSt V,
    foldMro henv fenv note pid cid st mros =
      foldSubs henv fenv note pid cid st (allSubs st.regs mros) := by
  induction mros with
  | nil => intro st; rfl
  | cons t rest ih =>
      intro st
      have hsplit : allSubs st.regs (t :: rest) =
          subsFor st.regs t ++ allSubs st.regs rest := by
        simp [allSubs]
      rw [hsplit, foldSubs_append]
      simp only [foldMro]
      rcases hfs : foldSubs henv fenv note pid cid st (subsFor st.regs t)
        with ⟨st1, o1⟩
      cases o1 with
      | none =>
          have hregs : st1.regs = st.regs :=
            (foldSubs_facts henv fenv note pid cid _ st st1 none hfs).1
          show foldMro henv fenv note pid cid st1 rest =
            foldSubs henv fenv note pid cid st1 (allSubs st.regs rest)
          rw [ih st1, hregs]
      | some e => rfl

/-- What one gather-phase call does. -/
theorem runAsyncCall_step {V : Type} (henv : Nat → HandlerB V)
    (fenv : Nat → FilterB V) (note : Note V) (pid cid : DId)
    (gst : GatherSt V) (c : Nat × Nat) (gst' : GatherSt V) (o : Option String)
    (hrc : runAsyncCall henv note pid cid gst c = (gst', o))
    (hargc : c.2 = min (henv c.1).arity 3) :
    ∃ e cs,
      gst'.async_responses = gst.async_responses ++ e ∧
      gst'.calls = gst.calls ++ cs ∧
      (e = [] ∨ ∃ r, e = [r] ∧ r.handler = c.1 ∧ r.note = note) ∧
      (o = none → ∃ r, e = [r] ∧ r.handler = c.1 ∧ r.note = note) ∧
      (∀ cr ∈ cs, callShape henv fenv note pid cid cr ∧
        ∀ h' args res, cr = CallRec.handlerCall h' args res → h' = c.1) ∧
      (o = none → ∀ cr ∈ cs, callOk cr) := by
  have hargseq : asyncArgs note pid cid gst c.2 =
      ([Arg.note note, Arg.dict ⟨pid, gst.payload⟩,
        Arg.dict ⟨cid, gst.context⟩] : List (Arg V)).take (henv c.1).arity := by
    rw [asyncArgs, hargc]
    exact take_min3 _ _ _ _
  have hshape : argShape note pid cid (henv c.1).arity
      (asyncArgs note pid cid gst c.2) :=
    ⟨gst.payload, gst.context, hargseq⟩
  unfold runAsyncCall at hrc
  split at hrc
  · next e heq =>
      injection hrc with h1 h2
      subst h1; subst h2
      refine ⟨[],
        [CallRec.handlerCall c.1 (asyncArgs note pid cid gst c.2)
          (Except.error e)],
        by simp, rfl, Or.inl rfl, (by intro ho; cases ho), ?_,
        (by intro ho; cases ho)⟩
      intro cr hcr
      simp only [List.mem_singleton] at hcr
      subst hcr
      refine ⟨hshape, ?_⟩
      intro h' args res hceq
      injection hceq with e1 e2 e3
      exact e1.symm
  · next hr heq =>
      split at hrc
      · next hz =>
          injection hrc with h1 h2
          subst h1; subst h2
          refine ⟨[],
            [CallRec.handlerCall c.1 (asyncArgs note pid cid gst c.2)
              (Except.ok hr)],
            by simp, rfl, Or.inl rfl, (by intro ho; cases ho), ?_,
            (by intro ho; cases ho)⟩
          intro cr hcr
          simp only [List.mem_singleton] at hcr
          subst hcr
          refine ⟨hshape, ?_⟩
          intro h' args res hceq
          injection hceq with e1 e2 e3
          exact e1.symm
      · next hz =>
          injection hrc with h1 h2
          subst h1; subst h2
          refine ⟨[⟨c.1, note,
              (if 1 < c.2 then pid else DId.freshEmpty gst.nextFresh),
              (if 2 < c.2 then cid else DId.freshEmpty (gst.nextFresh + 1)),
              hr.result⟩],
            [CallRec.handlerCall c.1 (asyncArgs note pid cid gst c.2)
              (Except.ok hr)],
            rfl, rfl, Or.inr ⟨_, rfl, rfl, rfl⟩,
            fun _ => ⟨_, rfl, rfl, rfl⟩, ?_, ?_⟩
          · intro cr hcr
            simp only [List.mem_singleton] at hcr
            subst hcr
            refine ⟨hshape, ?_⟩
            intro h' args res hceq
            injection hceq with e1 e2 e3
            exact e1.symm
          · intro _ cr hcr
            simp only [List.mem_singleton] at hcr
            subst hcr
            simp [callOk]

/-- Cumulative effect of the gather phase. -/
theorem foldAsync_facts {V : Type} (henv : Nat → HandlerB V)
    (fenv : Nat → FilterB V) (note : Note V) (pid cid : DId)
    (l : List (Nat × Nat)) : ∀ (gst gst' : GatherSt V) (o : Option String),
    (∀ p ∈ l, p.2 = min (henv p.1).arity 3) →
    foldAsync henv note pid cid gst l = (gst', o) →
    ∃ e cs,
      gst'.async_responses = gst.async_responses ++ e ∧
      gst'.calls = gst.calls ++ cs ∧
      List.Sublist (e.map Response.handler) (l.map Prod.fst) ∧
      (o = none → e.map Response.handler = l.map Prod.fst) ∧
      (∀ r ∈ e, r.note = note) ∧
      (∀ cr ∈ cs, callShape henv fenv note pid cid cr ∧
        ∀ h' args res, cr = CallRec.handlerCall h' args res →
          h' ∈ l.map Prod.fst) ∧
      (o = none → ∀ cr ∈ cs, callOk cr) := by
  induction l with
  | nil =>
      intro gst gst' o hargs hf
      simp only [foldAsync] at hf
      injection hf with h1 h2
      subst h1; subst h2
      exact ⟨[], [], by simp, by simp, List.nil_sublist _, fun _ => rfl,
        by simp, by simp, by simp⟩
  | cons c l ih =>
      intro gst gst' o hargs hf
      simp only [foldAsync] at hf
      rcases hrc : runAsyncCall henv note pid cid gst c with ⟨gst1, o1⟩
      rw [hrc] at hf
      obtain ⟨e1, cs1, r1, r2, r3, r4, r5, r6⟩ :=
        runAsyncCall_step henv fenv note pid cid gst c gst1 o1 hrc
          (hargs c (List.mem_cons_self c l))
      have he1sub : List.Sublist (e1.map Response.handler) [c.1] := by
        rcases r3 with rfl | ⟨r, rfl, hr1, -⟩
        · exact List.nil_sublist _
        · simp only [List.map_cons, List.map_nil, hr1]
          exact List.Sublist.refl _
      have he1note : ∀ r ∈ e1, r.note = note := by
        rcases r3 with rfl | ⟨r, rfl, -, hr2⟩
        · intro r hr; cases hr
        · intro r' hr'
          simp only [List.mem_singleton] at hr'
          subst hr'
          exact hr2
      have hsingle : List.Sublist [c.1] (c.1 :: l.map Prod.fst) :=
        (List.nil_sublist _).cons₂ c.1
      cases o1 with
      | some err =>
          injection hf with h1 h2
          subst h1; subst h2
          refine ⟨e1, cs1, r1, r2, he1sub.trans hsingle,
            (by intro ho; cases ho), he1note, ?_, (by intro ho; cases ho)⟩
          intro cr hcr
          refine ⟨(r5 cr hcr).1, ?_⟩
          intro h' args res hceq
          rw [(r5 cr hcr).2 h' args res hceq]
          exact List.mem_cons_self _ _
      | none =>
          obtain ⟨e2, cs2, i1, i2, i3, i4, i5, i6, i7⟩ :=
            ih gst1 gst' o (fun p hp => hargs p (List.mem_cons_of_mem c hp)) hf
          refine ⟨e1 ++ e2, cs1 ++ cs2, ?_, ?_, ?_, ?_, ?_, ?_, ?_⟩
          · rw [i1, r1, List.append_assoc]
          · rw [i2, r2, List.append_assoc]
          · rw [List.map_append]
            exact List.Sublist.append he1sub i3
          · intro ho
            obtain ⟨r, rfl, hr1, -⟩ := r4 rfl
            rw [List.map_append, i4 ho]
            simp [hr1]
          · intro r hr
            rcases List.mem_append.mp hr with hr | hr
            · exact he1note r hr
            · exact i5 r hr
          · intro cr hcr
            rcases List.mem_append.mp hcr with hcr | hcr
            · refine ⟨(r5 cr hcr).1, ?_⟩
              intro h' args res hceq
              rw [(r5 cr hcr).2 h' args res hceq]
              exact List.mem_cons_self _ _
            · refine ⟨(i6 cr hcr).1, ?_⟩
              intro h' args res hceq
              exact List.mem_cons_of_mem _ ((i6 cr hcr).2 h' args res hceq)
          · intro ho cr hcr
            rcases List.mem_append.mp hcr with hcr | hcr
            · exact r6 rfl cr hcr
            · exact i7 ho cr hcr

/-- Evaluation of `processSub` on an unseen handler whose filter returns
`False`. -/
theorem processSub_filter_false {V : Type} (henv : Nat → HandlerB V)
    (fenv : Nat → FilterB V) (note : Note V) (pid cid : DId) (st : TravSt V)
    (s : Subscription) (f : Nat)
    (hc : st.seen_handlers.contains s.handler = false)
    (hfil : s.filter = some f)
    (hfalse : ∀ args, (fenv f).run args = Except.ok false) :
    processSub henv fenv note pid cid st s =
      (logFilter (markSeen st s.handler) f
        (filterArgs fenv note pid cid (markSeen st s.handler) f)
        (Except.ok false), none) := by
  unfold processSub
  rw [if_neg (by rw [hc]; simp), hfil]
  simp only [hfalse]

theorem mem_allSubs {regs : Registry} {mro : List Nat} {T : Nat}
    {s : Subscription} (hT : T ∈ mro) (hs : s ∈ subsFor regs T) :
    s ∈ allSubs regs mro :=
  List.mem_flatMap.mpr ⟨T, hT, hs⟩

theorem first_occurrence_split {h : Nat} :
    ∀ l : List Subscription, (∃ s ∈ l, s.handler = h) →
    ∃ l₁ s₀ l₂, l = l₁ ++ s₀ :: l₂ ∧ s₀.handler = h ∧
      ∀ s ∈ l₁, s.handler ≠ h := by
  intro l
  induction l with
  | nil =>
      rintro ⟨s, hs, -⟩
      cases hs
  | cons a l ih =>
      rintro ⟨s, hs, hsh⟩
      by_cases ha : a.handler = h
      · exact ⟨[], a, l, rfl, ha, fun s' hs' => absurd hs' (List.not_mem_nil s')⟩
      · rcases List.mem_cons.mp hs with rfl | hs2
        · exact absurd hsh ha
        · obtain ⟨l₁, s₀, l₂, heq, hs₀, hl₁⟩ := ih ⟨s, hs2, hsh⟩
          refine ⟨a :: l₁, s₀, l₂, by rw [heq]; rfl, hs₀, ?_⟩
          intro s' hs'
          rcases List.mem_cons.mp hs' with rfl | hs'
          · exact ha
          · exact hl₁ s' hs'

/-- If the first registration of `h` in traversal order carries a filter
that always rejects, the traversal produces nothing attributed to `h`:
no sync response, no scheduled async call, no handler invocation. -/
theorem foldSubs_filter_false_never {V : Type} (henv : Nat → HandlerB V)
    (fenv : Nat → FilterB V) (note : Note V) (pid cid : DId) (h f : Nat)
    (l₁ l₂ : List Subscription) (s₀ : Subscription)
    (hs₀ : s₀.handler = h) (hl₁ : ∀ s ∈ l₁, s.handler ≠ h)
    (hfil : s₀.filter = some f)
    (hfalse : ∀ args, (fenv f).run args = Except.ok false) :
    ∀ (st st' : TravSt V) (o : Option String),
    st.seen_handlers.contains h = false →
    foldSubs henv fenv note pid cid st (l₁ ++ s₀ :: l₂) = (st', o) →
    hRespCount h st'.sync_responses = hRespCount h st.sync_responses ∧
    hAcallCount h st'.async_calls = hAcallCount h st.async_calls ∧
    hCallCount h st'.calls = hCallCount h st.calls := by
  intro st st' o hcon hf
  rw [foldSubs_append] at hf
  rcases hA : foldSubs henv fenv note pid cid st l₁ with ⟨stA, oA⟩
  rw [hA] at hf
  obtain ⟨a1, a2, a3, a4⟩ :=
    foldSubs_not_mem henv fenv note pid cid h l₁ hl₁ st stA oA hA
  cases oA with
  | some e =>
      injection hf with h1 h2
      subst h1
      exact ⟨a2, a3, a4⟩
  | none =>
      have hconA : stA.seen_handlers.contains h = false := by
        rw [a1]; exact hcon
      have hcsA : stA.seen_handlers.contains s₀.handler = false := by
        rw [hs₀]; exact hconA
      have hstep := processSub_filter_false henv fenv note pid cid stA s₀ f
        hcsA hfil hfalse
      have hf2 : foldSubs henv fenv note pid cid
          (logFilter (markSeen stA s₀.handler) f
            (filterArgs fenv note pid cid (markSeen stA s₀.handler) f)
            (Except.ok false)) l₂ = (st', o) := by
        simp only [foldSubs] at hf
        rw [hstep] at hf
        exact hf
      have hconB : (logFilter (markSeen stA s₀.handler) f
          (filterArgs fenv note pid cid (markSeen stA s₀.handler) f)
          (Except.ok false)).seen_handlers.contains h = true := by
        show (stA.seen_handlers ++ [s₀.handler]).contains h = true
        rw [hs₀]
        exact contains_append_self _ _
      obtain ⟨-, k2, k3, k4⟩ :=
        foldSubs_seen henv fenv note pid cid h l₂ _ st' o hconB hf2
      have hzB : hCallCount h (logFilter (markSeen stA s₀.handler) f
          (filterArgs fenv note pid cid (markSeen stA s₀.handler) f)
          (Except.ok false)).calls = hCallCount h stA.calls := by
        show hCallCount h (stA.calls ++ [CallRec.filterCall f
          (filterArgs fenv note pid cid (markSeen stA s₀.handler) f)
          (Except.ok false)]) = hCallCount h stA.calls
        have hz0 : hCallCount h [CallRec.filterCall f
            (filterArgs fenv note pid cid (markSeen stA s₀.handler) f)
            (Except.ok false)] = 0 := by
          apply hCallCount_filterCalls_zero
          intro c hc h' args res
          simp only [List.mem_singleton] at hc
          subst hc
          intro hceq
          cases hceq
        rw [hCallCount_append, hz0, Nat.add_zero]
      refine ⟨?_, ?_, ?_⟩
      · rw [k2]; exact a2
      · rw [k3]; exact a3
      · rw [k4, hzB]; exact a4

/-- If the first registration of `h` in traversal order passes its filter
check, a successful traversal invokes `h` exactly once. -/
theorem foldSubs_exactly_once {V : Type} (henv : Nat → HandlerB V)
    (fenv : Nat → FilterB V) (note : Note V) (pid cid : DId) (h : Nat)
    (l₁ l₂ : List Subscription) (s₀ : Subscription)
    (hs₀ : s₀.handler = h) (hl₁ : ∀ s ∈ l₁, s.handler ≠ h)
    (hpass : passAlways fenv s₀) :
    ∀ (st st' : TravSt V),
    st.seen_handlers.contains h = false →
    foldSubs henv fenv note pid cid st (l₁ ++ s₀ :: l₂) = (st', none) →
    hMeasure h st' = hMeasure h st + 1 := by
  intro st st' hcon hf
  rw [foldSubs_append] at hf
  rcases hA : foldSubs henv fenv note pid cid st l₁ with ⟨stA, oA⟩
  rw [hA] at hf
  cases oA with
  | some e =>
      injection hf with h1 h2
      cases h2
  | none =>
      obtain ⟨a1, a2, a3, -⟩ :=
        foldSubs_not_mem henv fenv note pid cid h l₁ hl₁ st stA none hA
      have hconA : stA.seen_handlers.contains h = false := by
        rw [a1]; exact hcon
      have hcsA : stA.seen_handlers.contains s₀.handler = false := by
        rw [hs₀]; exact hconA
      simp only [foldSubs] at hf
      rcases hB : processSub henv fenv note pid cid stA s₀ with ⟨stB, oB⟩
      rw [hB] at hf
      cases oB with
      | some e =>
          injection hf with h1 h2
          cases h2
      | none =>
          obtain ⟨-, sseen, -, t1, u1, cs1, s1, s2, -, s4, s5, s6, -, -, s9⟩ :=
            processSub_step henv fenv note pid cid stA s₀ stB none hB
          have hinv : t1 ≠ [] ∨ u1 ≠ [] := s9 ⟨hcsA, rfl, hpass⟩
          have hmB : hMeasure h stB = hMeasure h stA + 1 := by
            rw [hMeasure, s1, s2, hRespCount_append, hAcallCount_append,
              hMeasure]
            have hcount : hRespCount h t1 + hAcallCount h u1 = 1 := by
              rcases s6 with rfl | rfl
              · rcases hinv with ht | hu
                · exact absurd rfl ht
                · rcases s5 with rfl | ⟨rfl, -⟩
                  · exact absurd rfl hu
                  · simp [hRespCount, hAcallCount, List.countP_cons, hs₀]
              · rcases hinv with ht | hu
                · rcases s4 with rfl | ⟨r, rfl, hr1, -⟩
                  · exact absurd rfl ht
                  · simp [hRespCount, hAcallCount, List.countP_cons, hr1, hs₀]
                · exact absurd rfl hu
            omega
          have hconB : stB.seen_handlers.contains h = true := by
            rw [sseen, if_neg (by rw [hcsA]; simp), hs₀]
            exact contains_append_self _ _
          obtain ⟨-, k2, k3, -⟩ :=
            foldSubs_seen henv fenv note pid cid h l₂ stB st' none hconB hf
          have hfin : hMeasure h st' = hMeasure h stB := by
            rw [hMeasure, k2, k3, hMeasure]
          have hstA : hMeasure h stA = hMeasure h st := by
            rw [hMeasure, a2, a3, hMeasure]
          rw [hfin, hmB, hstA]

theorem hRespCount_eq_countP_map {V : Type} (h : Nat) (e : List (Response V)) :
    hRespCount h e = (e.map Response.handler).countP (fun x => x == h) := by
  rw [hRespCount, List.countP_map]
  rfl

theorem hAcallCount_eq_countP_map (h : Nat) (l : List (Nat × Nat)) :
    hAcallCount h l = (l.map Prod.fst).countP (fun x => x == h) := by
  rw [hAcallCount, List.countP_map]
  rfl

/-- Evaluation of `emit` when the traversal raises. -/
theorem emit_trav_error {V : Type} (henv : Nat → HandlerB V)
    (fenv : Nat → FilterB V) (regs : Registry) (note : Note V)
    (context : Option (DRef V)) (payload : Entries V) (st : TravSt V)
    (e : String)
    (hmro : foldMro henv fenv note DId.payloadDict (ctxRef context).id
      (initSt regs payload (ctxRef context)) note.mro = (st, some e)) :
    emit henv fenv regs note context payload =
      ⟨st.regs, (ctxRef context).id, st.context, st.payload, st.calls,
        st.sync_responses, [], st.async_calls, Except.error e⟩ := by
  unfold emit
  rw [hmro]

/-- Evaluation of `emit` when the traversal completes and the gather phase
raises. -/
theorem emit_gather_error {V : Type} (henv : Nat → HandlerB V)
    (fenv : Nat → FilterB V) (regs : Registry) (note : Note V)
    (context : Option (DRef V)) (payload : Entries V) (st : TravSt V)
    (gst : GatherSt V) (e : String)
    (hmro : foldMro henv fenv note DId.payloadDict (ctxRef context).id
      (initSt regs payload (ctxRef context)) note.mro = (st, none))
    (hgat : foldAsync henv note DId.payloadDict (ctxRef context).id
      ⟨[], st.payload, st.context, st.calls, 0⟩ st.async_calls =
      (gst, some e)) :
    emit henv fenv regs note context payload =
      ⟨st.regs, (ctxRef context).id, gst.context, gst.payload, gst.calls,
        st.sync_responses, gst.async_responses, st.async_calls,
        Except.error e⟩ := by
  unfold emit
  rw [hmro]
  show (match foldAsync henv note DId.payloadDict (ctxRef context).id
      ⟨[], st.payload, st.context, st.calls, 0⟩ st.async_calls with
    | (gst, some e) =>
        (⟨st.regs, (ctxRef context).id, gst.context, gst.payload, gst.calls,
          st.sync_responses, gst.async_responses, st.async_calls,
          Except.error e⟩ : EmitResult V)
    | (gst, none) =>
        ⟨st.regs, (ctxRef context).id, gst.context, gst.payload, gst.calls,
          st.sync_responses, gst.async_responses, st.async_calls,
          Except.ok (st.sync_responses ++ gst.async_responses)⟩) = _
  rw [hgat]

/-- Evaluation of `emit` when both phases complete. -/
theorem emit_ok_eq {V : Type} (henv : Nat → HandlerB V)
    (fenv : Nat → FilterB V) (regs : Registry) (note : Note V)
    (context : Option (DRef V)) (payload : Entries V) (st : TravSt V)
    (gst : GatherSt V)
    (hmro : foldMro henv fenv note DId.payloadDict (ctxRef context).id
      (initSt regs payload (ctxRef context)) note.mro = (st, none))
    (hgat : foldAsync henv note DId.payloadDict (ctxRef context).id
      ⟨[], st.payload, st.context, st.calls, 0⟩ st.async_calls =
      (gst, none)) :
    emit henv fenv regs note context payload =
      ⟨st.regs, (ctxRef context).id, gst.context, gst.payload, gst.calls,
        st.sync_responses, gst.async_responses, st.async_calls,
        Except.ok (st.sync_responses ++ gst.async_responses)⟩ := by
  unfold emit
  rw [hmro]
  show (match foldAsync henv note DId.payloadDict (ctxRef context).id
      ⟨[], st.payload, st.context, st.calls, 0⟩ st.async_calls with
    | (gst, some e) =>
        (⟨st.regs, (ctxRef context).id, gst.context, gst.payload, gst.calls,
          st.sync_responses, gst.async_responses, st.async_calls,
          Except.error e⟩ : EmitResult V)
    | (gst, none) =>
        ⟨st.regs, (ctxRef context).id, gst.context, gst.payload, gst.calls,
          st.sync_responses, gst.async_responses, st.async_calls,
          Except.ok (st.sync_responses ++ gst.async_responses)⟩) = _
  rw [hgat]

/-- Workhorse: everything one `emit` call guarantees unconditionally or
under success, assembled from the traversal and gather lemmas. -/
theorem emit_facts {V : Type} (henv : Nat → HandlerB V) (fenv : Nat → FilterB V)
    (regs : Registry) (note : Note V) (context : Option (DRef V))
    (payload : Entries V) (out : EmitResult V)
    (hout : emit henv fenv regs note context payload = out) :
    out.regs = regs ∧
    out.contextId = (ctxRef context).id ∧
    (∀ c ∈ out.calls, callShape henv fenv note DId.payloadDict out.contextId c) ∧
    (∀ rs, out.result = Except.ok rs → ∀ c ∈ out.calls, callOk c) ∧
    (∀ rs, out.result = Except.ok rs →
      rs = out.sync_responses ++ out.async_responses) ∧
    (∀ r ∈ out.sync_responses, r.note = note ∧ r.payload = DId.payloadDict ∧
      r.context = out.contextId ∧ (henv r.handler).isAsync = false) ∧
    (∀ p ∈ out.async_submitted, (henv p.1).isAsync = true ∧
      p.2 = min (henv p.1).arity 3) ∧
    List.Sublist (out.sync_responses.map Response.handler)
      ((allSubs regs note.mro).map Subscription.handler) ∧
    List.Sublist (out.async_submitted.map Prod.fst)
      ((allSubs regs note.mro).map Subscription.handler) ∧
    (∀ rs, out.result = Except.ok rs →
      out.async_responses.map Response.handler =
        out.async_submitted.map Prod.fst) ∧
    (∀ r ∈ out.async_responses, r.note = note) ∧
    (∀ h, hRespCount h out.sync_responses +
      hAcallCount h out.async_submitted ≤ 1) := by
  have hflat := foldMro_flatten henv fenv note DId.payloadDict
    (ctxRef context).id note.mro (initSt regs payload (ctxRef context))
  rcases hmro : foldMro henv fenv note DId.payloadDict (ctxRef context).id
      (initSt regs payload (ctxRef context)) note.mro with ⟨st, oSt⟩
  rw [hmro] at hflat
  have hfs : foldSubs henv fenv note DId.payloadDict (ctxRef context).id
      (initSt regs payload (ctxRef context)) (allSubs regs note.mro) =
      (st, oSt) := hflat.symm
  obtain ⟨fregs, -, t, u, cs, f1, f2, f3, f4, f5, f6, f7, f8, f9⟩ :=
    foldSubs_facts henv fenv note DId.payloadDict (ctxRef context).id
      (allSubs regs note.mro) (initSt regs payload (ctxRef context)) st oSt hfs
  have hsync : st.sync_responses = t := by
    rw [f1]; rfl
  have hasync : st.async_calls = u := by
    rw [f2]; rfl
  have hcalls : st.calls = cs := by
    rw [f3]; rfl
  have hamo : ∀ h : Nat, AMO h st := by
    intro h
    refine foldSubs_amo henv fenv note DId.payloadDict (ctxRef context).id h
      (allSubs regs note.mro) (initSt regs payload (ctxRef context)) st oSt
      ⟨fun _ => rfl, by simp [hMeasure, hRespCount, hAcallCount, initSt]⟩ hfs
  have hmeas : ∀ h : Nat, hRespCount h st.sync_responses +
      hAcallCount h st.async_calls ≤ 1 := fun h => (hamo h).2
  cases oSt with
  | some e =>
      have hout2 : (⟨st.regs, (ctxRef context).id, st.context, st.payload,
          st.calls, st.sync_responses, [], st.async_calls,
          Except.error e⟩ : EmitResult V) = out :=
        (emit_trav_error henv fenv regs note context payload st e hmro).symm.trans
          hout
      have oregs : out.regs = st.regs := by rw [← hout2]
      have octx : out.contextId = (ctxRef context).id := by rw [← hout2]
      have ocalls : out.calls = st.calls := by rw [← hout2]
      have osync : out.sync_responses = st.sync_responses := by rw [← hout2]
      have oasub : out.async_submitted = st.async_calls := by rw [← hout2]
      have oaresp : out.async_responses = [] := by rw [← hout2]
      have ores : out.result = Except.error e := by rw [← hout2]
      refine ⟨by rw [oregs]; exact fregs, octx, ?_, ?_, ?_, ?_, ?_, ?_, ?_,
        ?_, ?_, ?_⟩
      · intro c hc
        rw [ocalls, hcalls] at hc
        rw [octx]
        exact f8 c hc
      · intro rs hres
        rw [ores] at hres
        cases hres
      · intro rs hres
        rw [ores] at hres
        cases hres
      · intro r hr
        rw [osync, hsync] at hr
        rw [octx]
        exact f6 r hr
      · intro p hp
        rw [oasub, hasync] at hp
        exact f7 p hp
      · rw [osync, hsync]
        exact f4
      · rw [oasub, hasync]
        exact f5
      · intro rs hres
        rw [ores] at hres
        cases hres
      · intro r hr
        rw [oaresp] at hr
        cases hr
      · intro h
        rw [osync, oasub]
        exact hmeas h
  | none =>
      rcases hgat : foldAsync henv note DId.payloadDict (ctxRef context).id
          ⟨[], st.payload, st.context, st.calls, 0⟩ st.async_calls
        with ⟨gst, oG⟩
      have hgargs : ∀ p ∈ st.async_calls, p.2 = min (henv p.1).arity 3 := by
        intro p hp
        rw [hasync] at hp
        exact (f7 p hp).2
      obtain ⟨eg, csg, g1, g2, g3, g4, g5, g6, g7⟩ :=
        foldAsync_facts henv fenv note DId.payloadDict (ctxRef context).id
          st.async_calls ⟨[], st.payload, st.context, st.calls, 0⟩ gst oG
          hgargs hgat
      have hgresp : gst.async_responses = eg := by
        rw [g1]; rfl
      have hgcalls : gst.calls = st.calls ++ csg := g2
      cases oG with
      | some e =>
          have hout2 : (⟨st.regs, (ctxRef context).id, gst.context,
              gst.payload, gst.calls, st.sync_responses, gst.async_responses,
              st.async_calls, Except.error e⟩ : EmitResult V) = out :=
            (emit_gather_error henv fenv regs note context payload st gst e
              hmro hgat).symm.trans hout
          have oregs : out.regs = st.regs := by rw [← hout2]
          have octx : out.contextId = (ctxRef context).id := by rw [← hout2]
          have ocalls : out.calls = gst.calls := by rw [← hout2]
          have osync : out.sync_responses = st.sync_responses := by
            rw [← hout2]
          have oasub : out.async_submitted = st.async_calls := by rw [← hout2]
          have oaresp : out.async_responses = gst.async_responses := by
            rw [← hout2]
          have ores : out.result = Except.error e := by rw [← hout2]
          refine ⟨by rw [oregs]; exact fregs, octx, ?_, ?_, ?_, ?_, ?_, ?_,
            ?_, ?_, ?_, ?_⟩
          · intro c hc
            rw [ocalls, hgcalls, hcalls] at hc
            rw [octx]
            rcases List.mem_append.mp hc with hc | hc
            · exact f8 c hc
            · exact (g6 c hc).1
          · intro rs hres
            rw [ores] at hres
            cases hres
          · intro rs hres
            rw [ores] at hres
            cases hres
          · intro r hr
            rw [osync, hsync] at hr
            rw [octx]
            exact f6 r hr
          · intro p hp
            rw [oasub, hasync] at hp
            exact f7 p hp
          · rw [osync, hsync]
            exact f4
          · rw [oasub, hasync]
            exact f5
          · intro rs hres
            rw [ores] at hres
            cases hres
          · intro r hr
            rw [oaresp, hgresp] at hr
            exact g5 r hr
          · intro h
            rw [osync, oasub]
            exact hmeas h
      | none =>
          have hout2 : (⟨st.regs, (ctxRef context).id, gst.context,
              gst.payload, gst.calls, st.sync_responses, gst.async_responses,
              st.async_calls,
              Except.ok (st.sync_responses ++ gst.async_responses)⟩ :
              EmitResult V) = out :=
            (emit_ok_eq henv fenv regs note context payload st gst
              hmro hgat).symm.trans hout
          have oregs : out.regs = st.regs := by rw [← hout2]
          have octx : out.contextId = (ctxRef context).id := by rw [← hout2]
          have ocalls : out.calls = gst.calls := by rw [← hout2]
          have osync : out.sync_responses = st.sync_responses := by
            rw [← hout2]
          have oasub : out.async_submitted = st.async_calls := by rw [← hout2]
          have oaresp : out.async_responses = gst.async_responses := by
            rw [← hout2]
          have ores : out.result =
              Except.ok (st.sync_responses ++ gst.async_responses) := by
            rw [← hout2]
          refine ⟨by rw [oregs]; exact fregs, octx, ?_, ?_, ?_, ?_, ?_, ?_,
            ?_, ?_, ?_, ?_⟩
          · intro c hc
            rw [ocalls, hgcalls, hcalls] at hc
            rw [octx]
            rcases List.mem_append.mp hc with hc | hc
            · exact f8 c hc
            · exact (g6 c hc).1
          · intro rs hres c hc
            rw [ocalls, hgcalls, hcalls] at hc
            rcases List.mem_append.mp hc with hc | hc
            · exact f9 rfl c hc
            · exact g7 rfl c hc
          · intro rs hres
            rw [ores] at hres
            injection hres with h1
            rw [osync, oaresp]
            exact h1.symm
          · intro r hr
            rw [osync, hsync] at hr
            rw [octx]
            exact f6 r hr
          · intro p hp
            rw [oasub, hasync] at hp
            exact f7 p hp
          · rw [osync, hsync]
            exact f4
          · rw [oasub, hasync]
            exact f5
          · intro rs hres
            rw [oaresp, oasub, hgresp]
            exact g4 rfl
          · intro r hr
            rw [oaresp, hgresp] at hr
            exact g5 r hr
          · intro h
            rw [osync, oasub]
            exact hmeas h

theorem not_mem_fst_of_acall_zero (h : Nat) (l : List (Nat × Nat))
    (hz : hAcallCount h l = 0) : h ∉ l.map Prod.fst := by
  intro hmem
  rcases List.mem_map.mp hmem with ⟨p, hp, hph⟩
  have := List.countP_eq_zero.mp hz p hp
  simp [hph] at this

theorem hRespCount_zero_of_sublist {V : Type} (h : Nat)
    (e : List (Response V)) (l : List (Nat × Nat))
    (hsub : List.Sublist (e.map Response.handler) (l.map Prod.fst))
    (hz : hAcallCount h l = 0) : hRespCount h e = 0 := by
  have hle := hsub.countP_le (fun x => x == h)
  rw [← hRespCount_eq_countP_map, ← hAcallCount_eq_countP_map] at hle
  omega

/-- On success, a handler's response count in the returned `Emission`
decomposes into its sync-response count plus its scheduled-async count. -/
theorem emit_hRespCount {V : Type} (henv : Nat → HandlerB V)
    (fenv : Nat → FilterB V) (regs : Registry) (note : Note V)
    (context : Option (DRef V)) (payload : Entries V) (out : EmitResult V)
    (hout : emit henv fenv regs note context payload = out)
    (rs : List (Response V)) (hres : out.result = Except.ok rs) (h : Nat) :
    hRespCount h rs = hRespCount h out.sync_responses +
      hAcallCount h out.async_submitted := by
  obtain ⟨-, -, -, -, e5, -, -, -, -, e10, -, -⟩ :=
    emit_facts henv fenv regs note context payload out hout
  rw [e5 rs hres, hRespCount_append]
  congr 1
  rw [hRespCount_eq_countP_map, e10 rs hres, ← hAcallCount_eq_countP_map]

/-- A handler whose every registration reached by this note is the single
pair `⟨h, fOpt⟩` (registered under `T`, with a passing filter) gets exactly
one response in a successful emission. -/
theorem emit_exactly_once {V : Type} (henv : Nat → HandlerB V)
    (fenv : Nat → FilterB V) (regs : Registry) (note : Note V)
    (context : Option (DRef V)) (payload : Entries V) (out : EmitResult V)
    (hout : emit henv fenv regs note context payload = out)
    (h : Nat) (fOpt : Option Nat) (T : Nat)
    (hT : T ∈ note.mro)
    (hsub : (⟨h, fOpt⟩ : Subscription) ∈ subsFor regs T)
    (huniq : ∀ s ∈ allSubs regs note.mro, s.handler = h → s = ⟨h, fOpt⟩)
    (hpass : passAlways fenv ⟨h, fOpt⟩)
    (rs : List (Response V)) (hres : out.result = Except.ok rs) :
    hRespCount h rs = 1 := by
  obtain ⟨l₁, s₀, l₂, hsplit, hs₀, hl₁⟩ :=
    first_occurrence_split (allSubs regs note.mro)
      ⟨⟨h, fOpt⟩, mem_allSubs hT hsub, rfl⟩
  have hs₀mem : s₀ ∈ allSubs regs note.mro := by
    rw [hsplit]
    exact List.mem_append_right l₁ (List.mem_cons_self s₀ l₂)
  have hs₀eq : s₀ = ⟨h, fOpt⟩ := huniq s₀ hs₀mem hs₀
  have hflat := foldMro_flatten henv fenv note DId.payloadDict
    (ctxRef context).id note.mro (initSt regs payload (ctxRef context))
  rcases hmro : foldMro henv fenv note DId.payloadDict (ctxRef context).id
      (initSt regs payload (ctxRef context)) note.mro with ⟨st, oSt⟩
  rw [hmro] at hflat
  have hfs : foldSubs henv fenv note DId.payloadDict (ctxRef context).id
      (initSt regs payload (ctxRef context)) (allSubs regs note.mro) =
      (st, oSt) := hflat.symm
  cases oSt with
  | some e =>
      have hE := emit_trav_error henv fenv regs note context payload st e hmro
      have hout2 := hE.symm.trans hout
      have ores : out.result = Except.error e := by rw [← hout2]
      rw [ores] at hres
      cases hres
  | none =>
      rcases hgat : foldAsync henv note DId.payloadDict (ctxRef context).id
          ⟨[], st.payload, st.context, st.calls, 0⟩ st.async_calls
        with ⟨gst, oG⟩
      cases oG with
      | some e =>
          have hE := emit_gather_error henv fenv regs note context payload
            st gst e hmro hgat
          have hout2 := hE.symm.trans hout
          have ores : out.result = Except.error e := by rw [← hout2]
          rw [ores] at hres
          cases hres
      | none =>
          rw [hsplit] at hfs
          have hm := foldSubs_exactly_once henv fenv note DId.payloadDict
            (ctxRef context).id h l₁ l₂ s₀ hs₀ hl₁
            (by rw [hs₀eq]; exact hpass)
            (initSt regs payload (ctxRef context)) st rfl hfs
          have hout2 := (emit_ok_eq henv fenv regs note context payload st gst
            hmro hgat).symm.trans hout
          have osync : out.sync_responses = st.sync_responses := by
            rw [← hout2]
          have oasub : out.async_submitted = st.async_calls := by
            rw [← hout2]
          have hcnt := emit_hRespCount henv fenv regs note context payload out
            hout rs hres h
          rw [hcnt, osync, oasub]
          have hm0 : hMeasure h (initSt regs payload (ctxRef context)) = 0 :=
            rfl
          rw [hm0] at hm
          exact hm

/-- If the first registration of `h` in traversal order carries an
always-rejecting filter, `h` is never invoked, never scheduled, and gets
no response, whatever happens later in the emission. -/
theorem emit_first_filter_false {V : Type} (henv : Nat → HandlerB V)
    (fenv : Nat → FilterB V) (regs : Registry) (note : Note V)
    (context : Option (DRef V)) (payload : Entries V) (out : EmitResult V)
    (hout : emit henv fenv regs note context payload = out)
    (h f : Nat) (l₁ l₂ : List Subscription) (s₀ : Subscription)
    (hsplit : allSubs regs note.mro = l₁ ++ s₀ :: l₂)
    (hs₀ : s₀.handler = h) (hl₁ : ∀ s ∈ l₁, s.handler ≠ h)
    (hfil : s₀.filter = some f)
    (hfalse : ∀ args, (fenv f).run args = Except.ok false) :
    hCallCount h out.calls = 0 ∧
    hAcallCount h out.async_submitted = 0 ∧
    hRespCount h out.sync_responses = 0 ∧
    (∀ rs, out.result = Except.ok rs → hRespCount h rs = 0) := by
  have hflat := foldMro_flatten henv fenv note DId.payloadDict
    (ctxRef context).id note.mro (initSt regs payload (ctxRef context))
  rcases hmro : foldMro henv fenv note DId.payloadDict (ctxRef context).id
      (initSt regs payload (ctxRef context)) note.mro with ⟨st, oSt⟩
  rw [hmro] at hflat
  have hfs : foldSubs henv fenv note DId.payloadDict (ctxRef context).id
      (initSt regs payload (ctxRef context)) (allSubs regs note.mro) =
      (st, oSt) := hflat.symm
  obtain ⟨-, -, t, u, cs, -, f2, -, -, -, -, f7, -, -⟩ :=
    foldSubs_facts henv fenv note DId.payloadDict (ctxRef context).id
      (allSubs regs note.mro) (initSt regs payload (ctxRef context)) st oSt hfs
  have hasync : st.async_calls = u := by
    rw [f2]; rfl
  rw [hsplit] at hfs
  obtain ⟨c1, c2, c3⟩ := foldSubs_filter_false_never henv fenv note
    DId.payloadDict (ctxRef context).id h f l₁ l₂ s₀ hs₀ hl₁ hfil hfalse
    (initSt regs payload (ctxRef context)) st oSt rfl hfs
  have hsy : hRespCount h st.sync_responses = 0 := by rw [c1]; rfl
  have hac : hAcallCount h st.async_calls = 0 := by rw [c2]; rfl
  have hcl : hCallCount h st.calls = 0 := by rw [c3]; rfl
  have hnotmem : h ∉ st.async_calls.map Prod.fst :=
    not_mem_fst_of_acall_zero h _ hac
  cases oSt with
  | some e =>
      have hout2 := (emit_trav_error henv fenv regs note context payload st e
        hmro).symm.trans hout
      have ocalls : out.calls = st.calls := by rw [← hout2]
      have osync : out.sync_responses = st.sync_responses := by rw [← hout2]
      have oasub : out.async_submitted = st.async_calls := by rw [← hout2]
      have ores : out.result = Except.error e := by rw [← hout2]
      refine ⟨by rw [ocalls]; exact hcl, by rw [oasub]; exact hac,
        by rw [osync]; exact hsy, ?_⟩
      intro rs hres
      rw [ores] at hres
      cases hres
  | none =>
      rcases hgat : foldAsync henv note DId.payloadDict (ctxRef context).id
          ⟨[], st.payload, st.context, st.calls, 0⟩ st.async_calls
        with ⟨gst, oG⟩
      have hgargs : ∀ p ∈ st.async_calls, p.2 = min (henv p.1).arity 3 := by
        intro p hp
        rw [hasync] at hp
        exact (f7 p hp).2
      obtain ⟨eg, csg, g1, g2, g3, g4, g5, g6, g7⟩ :=
        foldAsync_facts henv fenv note DId.payloadDict (ctxRef context).id
          st.async_calls ⟨[], st.payload, st.context, st.calls, 0⟩ gst oG
          hgargs hgat
      have hgresp : gst.async_responses = eg := by
        rw [g1]; rfl
      have hcsgz : hCallCount h csg = 0 := by
        rw [hCallCount, List.countP_eq_zero]
        intro cr hcr
        cases cr with
        | handlerCall h' args res =>
            have hmem := (g6 _ hcr).2 h' args res rfl
            simp only [isHCallOf, beq_iff_eq]
            intro hhe
            rw [hhe] at hmem
            exact hnotmem hmem
        | filterCall fc args res => simp [isHCallOf]
      have hgcl : hCallCount h gst.calls = 0 := by
        rw [g2]
        show hCallCount h (st.calls ++ csg) = 0
        rw [hCallCount_append, hcl, hcsgz]
      have hegz : hRespCount h eg = 0 :=
        hRespCount_zero_of_sublist h eg st.async_calls g3 hac
      cases oG with
      | some e =>
          have hout2 := (emit_gather_error henv fenv regs note context payload
            st gst e hmro hgat).symm.trans hout
          have ocalls : out.calls = gst.calls := by rw [← hout2]
          have osync : out.sync_responses = st.sync_responses := by
            rw [← hout2]
          have oasub : out.async_submitted = st.async_calls := by rw [← hout2]
          have ores : out.result = Except.error e := by rw [← hout2]
          refine ⟨by rw [ocalls]; exact hgcl, by rw [oasub]; exact hac,
            by rw [osync]; exact hsy, ?_⟩
          intro rs hres
          rw [ores] at hres
          cases hres
      | none =>
          have hout2 := (emit_ok_eq henv fenv regs note context payload
            st gst hmro hgat).symm.trans hout
          have ocalls : out.calls = gst.calls := by rw [← hout2]
          have osync : out.sync_responses = st.sync_responses := by
            rw [← hout2]
          have oasub : out.async_submitted = st.async_calls := by rw [← hout2]
          have ores : out.result =
              Except.ok (st.sync_responses ++ gst.async_responses) := by
            rw [← hout2]
          refine ⟨by rw [ocalls]; exact hgcl, by rw [oasub]; exact hac,
            by rw [osync]; exact hsy, ?_⟩
          intro rs hres
          rw [ores] at hres
          injection hres with h1
          rw [← h1, hRespCount_append, hsy, hgresp, hegz]

/-- C10: `emit` never modifies the subscription registry: the registry
after any emission — successful or failed, with or without handlers — is
exactly the registry it started from.  (Handlers are modelled as acting on
the payload/context dicts only, as the spec's data model prescribes; the
dispatch code itself contains no write to `_subscriptions`.) -/
theorem emit_preserves_registry {V : Type} (henv : Nat → HandlerB V)
    (fenv : Nat → FilterB V) (regs : Registry) (note : Note V)
    (context : Option (DRef V)) (payload : Entries V) :
    (emit henv fenv regs note context payload).regs = regs :=
  (emit_facts henv fenv regs note context payload _ rfl).1

/-- C3: every handler and every filter invocation of a dispatch receives
exactly the leading prefix, of its own declared parameter count, of the
triple `(note, typed_payload, context)` in that fixed order
(`callShape`); and `get_args_to_pass` maps parameter counts 1, 2, 3 to
exactly the matching slices of a three-argument tuple. -/
theorem emit_arity_slices {V : Type} (henv : Nat → HandlerB V)
    (fenv : Nat → FilterB V) (regs : Registry) (note : Note V)
    (context : Option (DRef V)) (payload : Entries V) (out : EmitResult V)
    (hout : emit henv fenv regs note context payload = out) :
    (∀ c ∈ out.calls,
      callShape henv fenv note DId.payloadDict out.contextId c) ∧
    (∀ a b c : Arg V, get_args_to_pass 1 [a, b, c] = [a] ∧
      get_args_to_pass 2 [a, b, c] = [a, b] ∧
      get_args_to_pass 3 [a, b, c] = [a, b, c]) := by
  refine ⟨(emit_facts henv fenv regs note context payload out hout).2.2.1, ?_⟩
  intro a b c
  exact ⟨rfl, rfl, rfl⟩

theorem emit_arity_slices_witness :
    callShape demoHandlers demoFilters (⟨[0], 0⟩ : Note Nat) DId.payloadDict
      (emit demoHandlers demoFilters [(0, [⟨2, none⟩, ⟨0, none⟩])]
        (⟨[0], 0⟩ : Note Nat) none []).contextId
      (CallRec.handlerCall 0
        [Arg.note ⟨[0], 0⟩, Arg.dict ⟨DId.payloadDict, []⟩,
         Arg.dict ⟨DId.freshCtx, []⟩]
        (Except.ok ⟨some 10, [], [("k", 5)]⟩)) :=
  (emit_arity_slices demoHandlers demoFilters [(0, [⟨2, none⟩, ⟨0, none⟩])]
    ⟨[0], 0⟩ none [] _ rfl).1 _ (List.mem_cons_self _ _)

/-- C6: emitting a note whose type has zero subscriptions at every
ancestor level returns an `Emission` of length 0 — `Except.ok []`, never
an error and never an absent value. -/
theorem emit_no_subscribers_empty {V : Type} (henv : Nat → HandlerB V)
    (fenv : Nat → FilterB V) (regs : Registry) (note : Note V)
    (context : Option (DRef V)) (payload : Entries V)
    (hsubs : ∀ t ∈ note.mro, subsFor regs t = []) :
    (emit henv fenv regs note context payload).result = Except.ok [] := by
  have hall : allSubs regs note.mro = [] := by
    rw [allSubs, List.flatMap_eq_nil_iff]
    exact hsubs
  have hflat2 : foldMro henv fenv note DId.payloadDict (ctxRef context).id
      (initSt regs payload (ctxRef context)) note.mro =
      foldSubs henv fenv note DId.payloadDict (ctxRef context).id
        (initSt regs payload (ctxRef context)) (allSubs regs note.mro) :=
    foldMro_flatten henv fenv note DId.payloadDict (ctxRef context).id
      note.mro (initSt regs payload (ctxRef context))
  rw [hall] at hflat2
  have hmro : foldMro henv fenv note DId.payloadDict (ctxRef context).id
      (initSt regs payload (ctxRef context)) note.mro =
      (initSt regs payload (ctxRef context), none) := hflat2
  rw [emit_ok_eq henv fenv regs note context payload _ _ hmro rfl]
  rfl

theorem emit_no_subscribers_empty_witness :
    (emit demoHandlers demoFilters [] (⟨[5], 0⟩ : Note Nat) none []).result =
      Except.ok [] :=
  emit_no_subscribers_empty demoHandlers demoFilters [] ⟨[5], 0⟩ none []
    (fun _ _ => rfl)

/-- C7: `emit` either returns a complete `Emission` or fails outright.
If the returned result is an `Emission`, then no filter and no handler
raised during the call (contrapositive: a raising filter or sync handler
makes `emit` fail, returning no `Emission`).  The concrete conjuncts show
an emission where the first sync handler succeeded and a later one raised:
a `_Response` had already been collected, yet the result is the error —
the collected responses are discarded, never partially returned. -/
theorem emit_no_partial_emission {V : Type} (henv : Nat → HandlerB V)
    (fenv : Nat → FilterB V) (regs : Registry) (note : Note V)
    (context : Option (DRef V)) (payload : Entries V) (out : EmitResult V)
    (hout : emit henv fenv regs note context payload = out) :
    (∀ rs, out.result = Except.ok rs → ∀ c ∈ out.calls, callOk c) ∧
    (emit demoHandlers demoFilters [(0, [⟨0, none⟩, ⟨3, none⟩])]
        (⟨[0], 0⟩ : Note Nat) none []).result = Except.error "boom" ∧
    (emit demoHandlers demoFilters [(0, [⟨0, none⟩, ⟨3, none⟩])]
        (⟨[0], 0⟩ : Note Nat) none []).sync_responses =
      [⟨0, ⟨[0], 0⟩, DId.payloadDict, DId.freshCtx, some 10⟩] :=
  ⟨(emit_facts henv fenv regs note context payload out hout).2.2.2.1,
    rfl, rfl⟩

theorem emit_no_partial_emission_witness :
    callOk (CallRec.handlerCall 0
      [Arg.note (⟨[0], 0⟩ : Note Nat), Arg.dict ⟨DId.payloadDict, []⟩,
       Arg.dict ⟨DId.freshCtx, []⟩]
      (Except.ok ⟨some 10, [], [("k", 5)]⟩)) :=
  (emit_no_partial_emission demoHandlers demoFilters [(0, [⟨0, none⟩])]
      ⟨[0], 0⟩ none [] _ rfl).1
    [⟨0, ⟨[0], 0⟩, DId.payloadDict, DId.freshCtx, some 10⟩] rfl _
    (List.mem_cons_self _ _)

/-- C4: the returned `Emission` is the sync block followed by the async
block: every sync handler's `_Response` comes first, in traversal order
(the sync handlers appear as a sublist of the traversal-ordered
subscription list: most-derived type first, registration order within a
type), followed by the async handlers' `_Response`s exactly in submission
order (`async_submitted`) — the batch join preserves submission order, not
completion order. -/
theorem emit_response_order {V : Type} (henv : Nat → HandlerB V)
    (fenv : Nat → FilterB V) (regs : Registry) (note : Note V)
    (context : Option (DRef V)) (payload : Entries V) (out : EmitResult V)
    (rs : List (Response V))
    (hout : emit henv fenv regs note context payload = out)
    (hres : out.result = Except.ok rs) :
    rs = out.sync_responses ++ out.async_responses ∧
    (∀ r ∈ out.sync_responses, (henv r.handler).isAsync = false) ∧
    (∀ r ∈ out.async_responses, (henv r.handler).isAsync = true) ∧
    out.async_responses.map Response.handler =
      out.async_submitted.map Prod.fst ∧
    List.Sublist (out.sync_responses.map Response.handler)
      ((allSubs regs note.mro).map Subscription.handler) ∧
    List.Sublist (out.async_submitted.map Prod.fst)
      ((allSubs regs note.mro).map Subscription.handler) := by
  obtain ⟨-, -, -, -, e5, e6, e7, e8, e9, e10, -, -⟩ :=
    emit_facts henv fenv regs note context payload out hout
  refine ⟨e5 rs hres, fun r hr => (e6 r hr).2.2.2, ?_, e10 rs hres, e8, e9⟩
  intro r hr
  have hmem : r.handler ∈ out.async_responses.map Response.handler :=
    List.mem_map_of_mem _ hr
  rw [e10 rs hres] at hmem
  rcases List.mem_map.mp hmem with ⟨p, hp, hph⟩
  rw [← hph]
  exact (e7 p hp).1

theorem emit_response_order_witness :
    [(⟨0, ⟨[0], 0⟩, DId.payloadDict, DId.freshCtx, some 10⟩ : Response Nat),
     ⟨2, ⟨[0], 0⟩, DId.freshEmpty 0, DId.freshEmpty 1, some 20⟩] =
      (emit demoHandlers demoFilters [(0, [⟨2, none⟩, ⟨0, none⟩])]
        (⟨[0], 0⟩ : Note Nat) none []).sync_responses ++
      (emit demoHandlers demoFilters [(0, [⟨2, none⟩, ⟨0, none⟩])]
        (⟨[0], 0⟩ : Note Nat) none []).async_responses :=
  (emit_response_order demoHandlers demoFilters [(0, [⟨2, none⟩, ⟨0, none⟩])]
    ⟨[0], 0⟩ none [] _ _ rfl rfl).1

/-- C1: deduplication by handler identity.  (a) In any successful
emission, every handler gets at most one `_Response`, however many times
and at however many ancestor levels it is registered — attribution goes to
the first (most-derived) level at which the handler is considered, since
`seen_handlers` is populated in traversal order.  (b) If a handler `h` is
subscribed (without filter) under an ancestor type `A` of the emitted
note's type and every registration of `h` reached by this note is that
subscription, `h` gets exactly one `_Response`, whose note is the emitted
instance. -/
theorem emit_dedup_invariant {V : Type} (henv : Nat → HandlerB V)
    (fenv : Nat → FilterB V) (regs : Registry) (note : Note V)
    (context : Option (DRef V)) (payload : Entries V) (out : EmitResult V)
    (rs : List (Response V))
    (hout : emit henv fenv regs note context payload = out)
    (hres : out.result = Except.ok rs) :
    (∀ h, hRespCount h rs ≤ 1) ∧
    (∀ h A, A ∈ note.mro →
      (⟨h, none⟩ : Subscription) ∈ subsFor regs A →
      (∀ s ∈ allSubs regs note.mro, s.handler = h → s = ⟨h, none⟩) →
      hRespCount h rs = 1 ∧ ∀ r ∈ rs, r.handler = h → r.note = note) := by
  obtain ⟨-, -, -, -, e5, e6, -, -, -, -, e11, e12⟩ :=
    emit_facts henv fenv regs note context payload out hout
  constructor
  · intro h
    rw [emit_hRespCount henv fenv regs note context payload out hout rs
      hres h]
    exact e12 h
  · intro h A hA hsub huniq
    refine ⟨emit_exactly_once henv fenv regs note context payload out hout h
      none A hA hsub huniq (Or.inl rfl) rs hres, ?_⟩
    intro r hr _
    rw [e5 rs hres] at hr
    rcases List.mem_append.mp hr with hr | hr
    · exact (e6 r hr).1
    · exact e11 r hr

theorem emit_dedup_invariant_witness :
    hRespCount 0 [(⟨0, ⟨[0, 1], 0⟩, DId.payloadDict, DId.freshCtx,
      some 10⟩ : Response Nat)] = 1 :=
  ((emit_dedup_invariant demoHandlers demoFilters
      [(1, [⟨0, none⟩]), (0, [⟨0, none⟩])] ⟨[0, 1], 0⟩ none [] _ _ rfl
      rfl).2 0 1 (by decide) (by decide) (by decide)).1

/-- C2: a filter gates its handler.  For a handler `h` registered on type
`T` (reached by the emitted note) with optional filter `fOpt`, and no
other registration of `h` reached by this note: if the filter always
evaluates to `False`, `h` is never invoked (no logged handler call), never
scheduled as an async task, and gets no `_Response`; if the filter always
evaluates to `True` or is absent (`passAlways`), `h` gets exactly one
`_Response` in a successful emission. -/
theorem emit_filter_gates_handler {V : Type} (henv : Nat → HandlerB V)
    (fenv : Nat → FilterB V) (regs : Registry) (note : Note V)
    (context : Option (DRef V)) (payload : Entries V) (out : EmitResult V)
    (h T : Nat) (fOpt : Option Nat)
    (hout : emit henv fenv regs note context payload = out)
    (hT : T ∈ note.mro)
    (hsub : (⟨h, fOpt⟩ : Subscription) ∈ subsFor regs T)
    (huniq : ∀ s ∈ allSubs regs note.mro, s.handler = h → s = ⟨h, fOpt⟩) :
    (∀ f, fOpt = some f →
      (∀ args, (fenv f).run args = Except.ok false) →
      hCallCount h out.calls = 0 ∧
      hAcallCount h out.async_submitted = 0 ∧
      (∀ rs, out.result = Except.ok rs → hRespCount h rs = 0)) ∧
    (passAlways fenv ⟨h, fOpt⟩ →
      ∀ rs, out.result = Except.ok rs → hRespCount h rs = 1) := by
  constructor
  · intro f hf hfalse
    obtain ⟨l₁, s₀, l₂, hsplit, hs₀, hl₁⟩ :=
      first_occurrence_split (allSubs regs note.mro)
        ⟨⟨h, fOpt⟩, mem_allSubs hT hsub, rfl⟩
    have hs₀eq : s₀ = ⟨h, fOpt⟩ := huniq s₀
      (by rw [hsplit]
          exact List.mem_append_right _ (List.mem_cons_self _ _)) hs₀
    obtain ⟨k1, k2, -, k4⟩ := emit_first_filter_false henv fenv regs note
      context payload out hout h f l₁ l₂ s₀ hsplit hs₀ hl₁
      (by rw [hs₀eq, hf]) hfalse
    exact ⟨k1, k2, k4⟩
  · intro hpass rs hres
    exact emit_exactly_once henv fenv regs note context payload out hout h
      fOpt T hT hsub huniq hpass rs hres

theorem emit_filter_gates_handler_witness :
    hRespCount 0 [(⟨0, ⟨[0], 0⟩, DId.payloadDict, DId.freshCtx,
      some 10⟩ : Response Nat)] = 1 :=
  (emit_filter_gates_handler demoHandlers demoFilters [(0, [⟨0, some 1⟩])]
      ⟨[0], 0⟩ none [] _ 0 0 (some 1) rfl (by decide) (by decide)
      (by decide)).2 (Or.inr ⟨1, rfl, fun _ => rfl⟩) _ rfl

/-- C9: deduplication happens before filter evaluation.  A handler `h`
registered under a more-derived type `D` of the emitted note with an
always-rejecting filter `f`, and also under a less-derived ancestor `A`
with a registration whose own filter would accept (or is absent), is not
invoked at any level of the emission: the rejecting more-derived
registration marks `h` as seen, so the accepting ancestor registration is
skipped — no handler call, no scheduling, no `_Response`. -/
theorem emit_dedup_before_filter {V : Type} (henv : Nat → HandlerB V)
    (fenv : Nat → FilterB V) (regs : Registry) (note : Note V)
    (context : Option (DRef V)) (payload : Entries V) (out : EmitResult V)
    (h f D A : Nat) (gOpt : Option Nat) (m₁ m₂ m₃ : List Nat)
    (hout : emit henv fenv regs note context payload = out)
    (hmro : note.mro = (m₁ ++ (D :: m₂)) ++ (A :: m₃))
    (hnoh1 : ∀ t ∈ m₁, ∀ s ∈ subsFor regs t, s.handler ≠ h)
    (hD : ∀ s ∈ subsFor regs D, s.handler = h → s = ⟨h, some f⟩)
    (hDmem : (⟨h, some f⟩ : Subscription) ∈ subsFor regs D)
    (hA : (⟨h, gOpt⟩ : Subscription) ∈ subsFor regs A)
    (hgpass : passAlways fenv ⟨h, gOpt⟩)
    (hfalse : ∀ args, (fenv f).run args = Except.ok false) :
    hCallCount h out.calls = 0 ∧
    hAcallCount h out.async_submitted = 0 ∧
    (∀ rs, out.result = Except.ok rs → hRespCount h rs = 0) := by
  obtain ⟨d₁, s₀, d₂, hdsplit, hs₀, hd₁⟩ :=
    first_occurrence_split (subsFor regs D) ⟨⟨h, some f⟩, hDmem, rfl⟩
  have hs₀eq : s₀ = ⟨h, some f⟩ := hD s₀
    (by rw [hdsplit]
        exact List.mem_append_right _ (List.mem_cons_self _ _)) hs₀
  have hsplit : allSubs regs note.mro =
      (m₁.flatMap (subsFor regs) ++ d₁) ++ s₀ ::
        (d₂ ++ (m₂.flatMap (subsFor regs) ++
          (subsFor regs A ++ m₃.flatMap (subsFor regs)))) := by
    rw [allSubs, hmro, List.flatMap_append, List.flatMap_append,
      List.flatMap_cons, List.flatMap_cons, hdsplit]
    simp [List.append_assoc]
  have hl₁ : ∀ s ∈ m₁.flatMap (subsFor regs) ++ d₁, s.handler ≠ h := by
    intro s hs
    rcases List.mem_append.mp hs with hs | hs
    · rcases List.mem_flatMap.mp hs with ⟨t, ht, hst⟩
      exact hnoh1 t ht s hst
    · exact hd₁ s hs
  obtain ⟨k1, k2, -, k4⟩ := emit_first_filter_false henv fenv regs note
    context payload out hout h f _ _ s₀ hsplit hs₀ hl₁
    (by rw [hs₀eq]) hfalse
  exact ⟨k1, k2, k4⟩

theorem emit_dedup_before_filter_witness :
    hCallCount 0 (emit demoHandlers demoFilters
      [(0, [⟨0, some 0⟩]), (1, [⟨0, none⟩])] (⟨[0, 1], 0⟩ : Note Nat)
      none []).calls = 0 :=
  (emit_dedup_before_filter demoHandlers demoFilters
      [(0, [⟨0, some 0⟩]), (1, [⟨0, none⟩])] ⟨[0, 1], 0⟩ none [] _
      0 0 0 1 none [] [] [] rfl rfl (by decide) (by decide) (by decide)
      (by decide) (Or.inl rfl) (fun _ => rfl)).1

/-- C8: context handling.  (a) When `emit` is called without a context, it
behaves exactly as if a fresh empty mapping had been supplied
(`ctxRef none = ⟨DId.freshCtx, []⟩`), used for that emission only.
(b) When a context dict is supplied, that identical object is the
emission's context: it is the caller-visible context of the result, every
sync `_Response` stores it, and every handler/filter call receives its
argument tuple built over that same object (`callShape` over its
identity).  (c) CPython's keyword binding of
`emit(note, *, context=None, **payload)` never lets a `context` key into
the payload.  (d) Concretely: handler 0 writes `k := 5` into a supplied
context; the later handler 1's logged call receives the same dict object
with the write already visible, and after `emit` returns the caller's
object holds the write. -/
theorem emit_context_threading {V : Type} (henv : Nat → HandlerB V)
    (fenv : Nat → FilterB V) (regs : Registry) (note : Note V)
    (payload : Entries V) :
    (emit henv fenv regs note none payload =
      emit henv fenv regs note (some ⟨DId.freshCtx, []⟩) payload) ∧
    (∀ (cd : DId) (ce : Entries V) (out : EmitResult V),
      emit henv fenv regs note (some ⟨cd, ce⟩) payload = out →
      out.contextId = cd ∧
      (∀ r ∈ out.sync_responses, r.context = cd) ∧
      (∀ c ∈ out.calls, callShape henv fenv note DId.payloadDict cd c)) ∧
    (∀ kwargs : List (Key × V), ∀ kv ∈ (bindEmitKwargs kwargs).2,
      kv.1 ≠ "context") ∧
    (emit demoHandlers demoFilters [(0, [⟨0, none⟩, ⟨1, none⟩])]
        (⟨[0], 0⟩ : Note Nat) (some ⟨DId.callerCtx 7, []⟩) []).calls =
      [CallRec.handlerCall 0
        [Arg.note ⟨[0], 0⟩, Arg.dict ⟨DId.payloadDict, []⟩,
         Arg.dict ⟨DId.callerCtx 7, []⟩]
        (Except.ok ⟨some 10, [], [("k", 5)]⟩),
       CallRec.handlerCall 1
        [Arg.note ⟨[0], 0⟩, Arg.dict ⟨DId.payloadDict, []⟩,
         Arg.dict ⟨DId.callerCtx 7, [("k", 5)]⟩]
        (Except.ok ⟨none, [], []⟩)] ∧
    (emit demoHandlers demoFilters [(0, [⟨0, none⟩, ⟨1, none⟩])]
        (⟨[0], 0⟩ : Note Nat) (some ⟨DId.callerCtx 7, []⟩) []).contextEntries =
      [("k", 5)] ∧
    (emit demoHandlers demoFilters [(0, [⟨0, none⟩, ⟨1, none⟩])]
        (⟨[0], 0⟩ : Note Nat) (some ⟨DId.callerCtx 7, []⟩) []).contextId =
      DId.callerCtx 7 := by
  refine ⟨rfl, ?_, ?_, rfl, rfl, rfl⟩
  · intro cd ce out hout
    obtain ⟨-, e2, e3, -, -, e6, -, -, -, -, -, -⟩ :=
      emit_facts henv fenv regs note (some ⟨cd, ce⟩) payload out hout
    have hcd : out.contextId = cd := e2
    refine ⟨hcd, ?_, ?_⟩
    · intro r hr
      rw [(e6 r hr).2.2.1, hcd]
    · intro c hc
      rw [← hcd]
      exact e3 c hc
  · intro kwargs kv hkv
    exact of_decide_eq_true (List.mem_filter.mp hkv).2

theorem emit_context_threading_witness :
    (emit demoHandlers demoFilters [] (⟨[0], 0⟩ : Note Nat)
      (some ⟨DId.callerCtx 3, []⟩) []).contextId = DId.callerCtx 3 :=
  ((emit_context_threading demoHandlers demoFilters [] ⟨[0], 0⟩ []).2.1
    (DId.callerCtx 3) [] _ rfl).1

/-- C5 (code defect, dispatch.py line 177): a `_Response` built for an
async handler of declared arity 1 or 2 does not carry the shared
`typed_payload` and context dicts — line 177 substitutes fresh empty `{}`
dicts (`args[1] if len(args) > 1 else {}`,
`args[2] if len(args) > 2 else {}`) for the tuple slots the truncated
argument tuple lacks.  Emitting to a single async arity-1 handler with
payload `{a: 1}` and a caller-supplied context yields a `_Response` whose
payload and context slots are newly allocated empty dicts, distinct from
the shared payload dict (which holds `{a: 1}`) and from the caller's
context dict — contradicting the documented `_Response` contents and the
sync-handler behaviour. -/
theorem emit_async_response_fresh_dict_slots :
    (emit demoHandlers demoFilters [(0, [⟨2, none⟩])] (⟨[0], 0⟩ : Note Nat)
      (some ⟨DId.callerCtx 7, []⟩) [("a", 1)]).result =
      Except.ok [⟨2, ⟨[0], 0⟩, DId.freshEmpty 0, DId.freshEmpty 1,
        some 20⟩] ∧
    DId.freshEmpty 0 ≠ DId.payloadDict ∧
    DId.freshEmpty 1 ≠ DId.callerCtx 7 ∧
    (emit demoHandlers demoFilters [(0, [⟨2, none⟩])] (⟨[0], 0⟩ : Note Nat)
      (some ⟨DId.callerCtx 7, []⟩) [("a", 1)]).payloadEntries = [("a", 1)] :=
  ⟨rfl, by decide, by decide, rfl⟩

end ZNote
